import Mathlib

/-!
# Verification of the k-means clustering engine (kmeans-cuda)

Shallow embedding of the OpenMP k-means clustering code.  Floating-point
values are modelled as exact rationals; machine `int` counters as `ℕ`/`ℤ`.

The repository holds two implementations of `omp_kmeans`:
* the original `kmeans_clustering.c` file, with `find_nearest_cluster`,
  a thread-local-accumulation branch and an experimental atomic branch that
  reads truncated, transposed coordinates (`objects[k][i]` cast to `int`);
* the improved `omp_new_kmeans.c` file, which inlines the nearest-centroid
  search over a `distArray`, always uses atomic accumulation, and stores
  the centroid matrix in `[numCoords][numClusters]` layout.

Both are embedded below.  Points and matrices are lists of rationals;
out-of-range list reads use `getD` with default `0`, matching the fact that
the concrete programs only ever index in bounds on well-formed inputs.
-/

namespace Kmeans

/-- `euclid_dist_2` from the original file: square of the Euclidean distance
between two multi-dimensional points, `Σ (coord1[i] - coord2[i])²`. -/
def euclid_dist_2 : List ℚ → List ℚ → ℚ
  | [], _ => 0
  | _, [] => 0
  | a :: as, b :: bs => (a - b) * (a - b) + euclid_dist_2 as bs

/-- The scan of `find_nearest_cluster` over clusters `1..K-1`: carries the
current best index and its distance, replaces them whenever a strictly
smaller distance is found (so the lowest index wins on exact ties). -/
def fnc_scan (object : List ℚ) : List (List ℚ) → ℕ → ℕ → ℚ → ℕ
  | [], _, index, _ => index
  | c :: rest, i, index, min_dist =>
      let dist := euclid_dist_2 object c
      if dist < min_dist then fnc_scan object rest (i + 1) i dist
      else fnc_scan object rest (i + 1) index min_dist

/-- `find_nearest_cluster` from the original file: index of the cluster
centre with minimal squared Euclidean distance to `object`; starts with
cluster `0` and scans the remaining clusters in order. -/
def find_nearest_cluster (object : List ℚ) : List (List ℚ) → ℕ
  | [] => 0
  | c0 :: rest => fnc_scan object rest 1 0 (euclid_dist_2 object c0)

/-! ## The improved implementation (`omp_new_kmeans.c`)

`clusters` is stored as `numCoords` rows of `numClusters` entries
(`clusters[k][j]` = coordinate `k` of centroid `j`).  `objects` is stored
as `numObjs` rows of `numCoords` entries. -/

/-- One `k`-step of the improved search:
`distArray[j] += (objects[i][k] - clusters[k][j])²` for every `j`. -/
def addCoordDist (distArray : List ℚ) (x : ℚ) (crow : List ℚ) : List ℚ :=
  List.zipWith (fun d c => d + (x - c) * (x - c)) distArray crow

/-- The improved implementation's `distArray`: first initialised from
coordinate `0`, then accumulated over coordinates `1..numCoords-1`.
`object` is a point row, `clusters` the `[numCoords][numClusters]` matrix. -/
def computeDistArray (object : List ℚ) (clusters : List (List ℚ)) : List ℚ :=
  match object, clusters with
  | x :: xs, crow :: crows =>
      (xs.zip crows).foldl (fun d p => addCoordDist d p.1 p.2)
        (crow.map (fun c => (x - c) * (x - c)))
  | _, _ => []

/-- `INT_MAX` assigned to the `float` variable `min_dist`: the conversion
rounds `2147483647` to the nearest representable value `2^31`. -/
def sentinel : ℚ := 2147483648

/-- The final `j`-scan of the improved search: `index` starts at `0` and
`min_dist` at the `INT_MAX` sentinel; `index` is replaced whenever
`distArray[j] < min_dist`. -/
def scanMin : List ℚ → ℕ → ℕ → ℚ → ℕ
  | [], _, index, _ => index
  | d :: rest, j, index, min_dist =>
      if d < min_dist then scanMin rest (j + 1) j d
      else scanMin rest (j + 1) index min_dist

/-- The improved implementation's inline nearest-centroid search
(distance accumulation into `distArray`, then a minimum scan starting
from the `INT_MAX` sentinel). -/
def improved_nearest (object : List ℚ) (clusters : List (List ℚ)) : ℕ :=
  scanMin (computeDistArray object clusters) 0 0 sentinel

/-- `newClusterSize[index]++`. -/
def bumpCount : List ℕ → ℕ → List ℕ
  | [], _ => []
  | c :: rest, 0 => (c + 1) :: rest
  | c :: rest, n + 1 => c :: bumpCount rest n

/-- Add `x` to entry `index` of a row (one coordinate row of
`newClusters[j][index] += objects[i][j]`). -/
def addAt : List ℚ → ℕ → ℚ → List ℚ
  | [], _, _ => []
  | c :: rest, 0, x => (c + x) :: rest
  | c :: rest, n + 1, x => c :: addAt rest n x

/-- `newClusters[j][index] += objects[i][j]` for every coordinate `j`:
`sums` has one row per coordinate, `object` one entry per coordinate. -/
def addObjectToSums (sums : List (List ℚ)) (object : List ℚ) (index : ℕ) :
    List (List ℚ) :=
  List.zipWith (fun row x => addAt row index x) sums object

/-- The result of one assignment pass of the improved implementation:
new membership column, change counter `delta`, member counts and
coordinate sums. -/
structure PassResult where
  membership : List ℤ
  delta : ℕ
  sizes : List ℕ
  sums : List (List ℚ)
  deriving DecidableEq, Repr

/-- The improved implementation's assignment pass, point by point: find the
nearest centroid, bump `delta` when the membership entry changes, record the
new membership, and accumulate the point into the cluster accumulators. -/
def assignPass (clusters : List (List ℚ)) :
    List (List ℚ) → List ℤ → List ℕ → List (List ℚ) → ℕ → PassResult
  | [], _, sizes, sums, delta => ⟨[], delta, sizes, sums⟩
  | obj :: objs, membership, sizes, sums, delta =>
      let index := improved_nearest obj clusters
      let mOld := membership.headD (-1)
      let delta' := if mOld ≠ (index : ℤ) then delta + 1 else delta
      let r := assignPass clusters objs membership.tail
        (bumpCount sizes index) (addObjectToSums sums obj index) delta'
      ⟨(index : ℤ) :: r.membership, r.delta, r.sizes, r.sums⟩

/-- The centroid-update step (`average the sum and replace old cluster
centers`): entry `(j, i)` becomes `newClusters[j][i] / newClusterSize[i]`
when `newClusterSize[i] > 1` and is left unchanged otherwise. -/
def updateRow (crow srow : List ℚ) (sizes : List ℕ) : List ℚ :=
  match crow, srow, sizes with
  | c :: cs, s :: ss, n :: ns =>
      (if n > 1 then s / (n : ℚ) else c) :: updateRow cs ss ns
  | c :: cs, _, _ => c :: cs
  | [], _, _ => []

/-- `update_centroids clusters sums sizes` applies `updateRow` to every
coordinate row of the centroid matrix. -/
def update_centroids (clusters sums : List (List ℚ)) (sizes : List ℕ) :
    List (List ℚ) :=
  match clusters, sums with
  | crow :: crows, srow :: srows =>
      updateRow crow srow sizes :: update_centroids crows srows sizes
  | crows, [] => crows
  | [], _ => []

/-- `newClusters[j][i] = 0.0` for the whole accumulator matrix. -/
def zeroSums (sums : List (List ℚ)) : List (List ℚ) :=
  sums.map (fun row => row.map (fun _ => (0 : ℚ)))

/-- `newClusterSize[i] = 0` for every cluster. -/
def zeroSizes (sizes : List ℕ) : List ℕ := sizes.map (fun _ => 0)

/-- State carried around the convergence loop: current centroid matrix,
membership column and the (zeroed) accumulators. -/
structure LoopState where
  clusters : List (List ℚ)
  membership : List ℤ
  sizes : List ℕ
  sums : List (List ℚ)
  deriving DecidableEq, Repr

/-- One body of the `do … while` loop: reset `delta`, run the assignment
pass, average the sums into the centroid matrix and reset the accumulators.
Returns the new state together with this iteration's raw change count. -/
def loopBody (objects : List (List ℚ)) (st : LoopState) : LoopState × ℕ :=
  let r := assignPass st.clusters objects st.membership st.sizes st.sums 0
  (⟨update_centroids st.clusters r.sums r.sizes, r.membership,
    zeroSizes r.sizes, zeroSums r.sums⟩, r.delta)

/-- Outcome of the convergence loop: final state, number of loop bodies
executed, the last (divided) `delta`, and whether the exit was by the
convergence test (`delta ≤ threshold`) rather than the iteration cap. -/
structure LoopResult where
  state : LoopState
  loops : ℕ
  lastDelta : ℚ
  converged : Bool
  deriving DecidableEq, Repr

/-- The `do { … } while (delta > threshold && loop++ < 500)` loop.  `fuel`
is the number of continuations the post-incremented `loop` counter still
allows (starting at `500`), and `bodies` counts executed loop bodies. -/
def loopGo (objects : List (List ℚ)) (numObjs : ℕ) (threshold : ℚ) :
    ℕ → LoopState → ℕ → LoopResult
  | 0, st, bodies =>
      let (st', d) := loopBody objects st
      let delta : ℚ := (d : ℚ) / (numObjs : ℚ)
      if delta ≤ threshold then ⟨st', bodies + 1, delta, true⟩
      else ⟨st', bodies + 1, delta, false⟩
  | fuel + 1, st, bodies =>
      let (st', d) := loopBody objects st
      let delta : ℚ := (d : ℚ) / (numObjs : ℚ)
      if delta ≤ threshold then ⟨st', bodies + 1, delta, true⟩
      else loopGo objects numObjs threshold fuel st' (bodies + 1)

/-- Result of `omp_kmeans`: the C return value, the two output arrays, and
the observable loop behaviour (iterations executed, convergence flag). -/
structure KmeansResult where
  ret : ℤ
  membership : List ℤ
  clusters : List (List ℚ)
  loops : ℕ
  converged : Bool
  deriving DecidableEq, Repr

/-- The improved `omp_kmeans`: initialise `membership` to `-1` and the
accumulators to zero, run the convergence loop (cap 500 on the
post-incremented loop counter), and return `1`.  The `is_perform_atomic`
parameter is accepted exactly as in the source, whose improved version
never reads it. -/
def omp_kmeans (is_perform_atomic : Bool) (objects : List (List ℚ))
    (numClusters : ℕ) (threshold : ℚ) (clusters : List (List ℚ)) :
    KmeansResult :=
  let numObjs := objects.length
  let membership : List ℤ := List.replicate numObjs (-1)
  let sizes : List ℕ := List.replicate numClusters 0
  let sums : List (List ℚ) := clusters.map (fun row => row.map (fun _ => 0))
  let r := loopGo objects numObjs threshold 500 ⟨clusters, membership, sizes, sums⟩ 0
  ⟨1, r.state.membership, r.state.clusters, r.loops, r.converged⟩

end Kmeans

namespace Kmeans

/-! ## A concrete slow-convergence input

A one-dimensional input on which the improved implementation's loop
executes 501 bodies: two anchor points at 0, a 501-point chain that the
growing cluster absorbs one point per iteration, and three far points
at 100 anchoring the second centroid. -/

/-- Numerators (denominator 1000) of the 501 chain coordinates. -/
def chainC2 : List ℤ := [
  1000, 16570, 24683, 26737, 28432, 29754, 30827, 31721, 32480, 33137, 33712, 34221, 34677, 35088, 35461, 35802, 36116, 36405,
  36673, 36923, 37156, 37375, 37581, 37774, 37958, 38131, 38296, 38452, 38601, 38744, 38880, 39010, 39135, 39255, 39370, 39481,
  39588, 39691, 39790, 39886, 39979, 40070, 40157, 40241, 40324, 40403, 40481, 40556, 40630, 40701, 40771, 40838, 40905, 40969,
  41032, 41094, 41154, 41213, 41270, 41327, 41382, 41436, 41489, 41541, 41592, 41642, 41690, 41739, 41786, 41832, 41878, 41922,
  41966, 42010, 42052, 42094, 42135, 42176, 42216, 42255, 42294, 42332, 42370, 42407, 42444, 42480, 42516, 42551, 42585, 42620,
  42653, 42687, 42720, 42752, 42784, 42816, 42848, 42879, 42909, 42940, 42970, 42999, 43029, 43058, 43087, 43115, 43143, 43171,
  43199, 43226, 43253, 43280, 43306, 43333, 43359, 43385, 43410, 43436, 43461, 43486, 43511, 43535, 43559, 43584, 43607, 43631,
  43655, 43678, 43701, 43724, 43747, 43770, 43793, 43815, 43837, 43859, 43881, 43903, 43924, 43946, 43967, 43988, 44010, 44030,
  44051, 44072, 44092, 44113, 44133, 44153, 44174, 44193, 44213, 44233, 44253, 44272, 44292, 44311, 44330, 44349, 44368, 44387,
  44406, 44425, 44444, 44462, 44481, 44499, 44518, 44536, 44554, 44572, 44590, 44608, 44626, 44644, 44662, 44679, 44697, 44715,
  44732, 44750, 44767, 44784, 44801, 44819, 44836, 44853, 44870, 44887, 44904, 44921, 44937, 44954, 44971, 44988, 45004, 45021,
  45037, 45054, 45070, 45087, 45103, 45119, 45136, 45152, 45168, 45184, 45201, 45217, 45233, 45249, 45265, 45281, 45297, 45313,
  45329, 45345, 45360, 45376, 45392, 45408, 45424, 45439, 45455, 45471, 45487, 45502, 45518, 45533, 45549, 45565, 45580, 45596,
  45611, 45627, 45643, 45658, 45674, 45689, 45705, 45720, 45736, 45751, 45766, 45782, 45797, 45813, 45828, 45844, 45859, 45875,
  45890, 45906, 45921, 45937, 45952, 45967, 45983, 45998, 46014, 46029, 46045, 46060, 46076, 46091, 46107, 46122, 46138, 46154,
  46169, 46185, 46200, 46216, 46232, 46247, 46263, 46279, 46294, 46310, 46326, 46342, 46357, 46373, 46389, 46405, 46421, 46437,
  46453, 46469, 46485, 46501, 46517, 46533, 46549, 46565, 46581, 46598, 46614, 46630, 46647, 46663, 46680, 46696, 46713, 46729,
  46746, 46762, 46779, 46796, 46813, 46829, 46846, 46863, 46880, 46897, 46914, 46932, 46949, 46966, 46983, 47001, 47018, 47036,
  47053, 47071, 47089, 47106, 47124, 47142, 47160, 47178, 47197, 47215, 47233, 47251, 47270, 47288, 47307, 47326, 47345, 47364,
  47383, 47402, 47421, 47440, 47459, 47479, 47499, 47518, 47538, 47558, 47578, 47598, 47618, 47639, 47659, 47680, 47701, 47721,
  47742, 47763, 47785, 47806, 47828, 47849, 47871, 47893, 47915, 47938, 47960, 47983, 48005, 48028, 48051, 48075, 48098, 48122,
  48146, 48170, 48194, 48218, 48243, 48268, 48293, 48318, 48343, 48369, 48395, 48421, 48448, 48474, 48501, 48528, 48556, 48584,
  48612, 48640, 48668, 48697, 48727, 48756, 48786, 48816, 48846, 48877, 48908, 48940, 48972, 49004, 49037, 49070, 49104, 49138,
  49172, 49207, 49242, 49278, 49314, 49351, 49388, 49426, 49465, 49504, 49543, 49584, 49624, 49666, 49708, 49751, 49794, 49839,
  49884, 49930, 49976, 50024, 50072, 50121, 50172, 50223, 50275, 50329, 50383, 50438, 50495, 50553, 50613, 50673, 50735, 50799,
  50864, 50931, 50999, 51069, 51141, 51215, 51291, 51370, 51450, 51533, 51618, 51707, 51798, 51892, 51989, 52089, 52194, 52302,
  52414, 52531, 52652, 52778, 52910, 53048, 53193, 53344, 53503, 53670, 53846, 54032, 54229, 54438, 54660, 54898, 55152, 55426,
  55722, 56042, 56391, 56773, 57195, 57663, 58188, 58782, 59461, 60250, 61182, 62306, 63702, 65501, 67949]

/-- View a list of one-dimensional coordinates as an object array. -/
def oneD (xs : List ℚ) : List (List ℚ) := xs.map (fun x => [x])

/-- The chain coordinates as rationals. -/
def chainQ : List ℚ := chainC2.map (fun n : ℤ => (n : ℚ) / 1000)

/-- All 506 coordinates of the slow-convergence input, in object order. -/
def allQ : List ℚ := List.replicate 2 0 ++ chainQ ++ List.replicate 3 100

/-- The slow-convergence object array. -/
def objsC2 : List (List ℚ) := oneD allQ

/-- Initial centroid matrix for the slow-convergence input: cluster 0 at 0,
cluster 1 at 17.57 (between the first and second chain points). -/
def clustersC2 : List (List ℚ) := [[0, 1757 / 100]]

/-- Per-iteration certificate for the slow-convergence run.  At absorption
count `t`, with absorbed chain sum `S`, remaining chain sum `Srest` and
current centroids `c0 < c1`, it checks that the next chain point joins
cluster 0 while the rest of the chain and the far points stay in cluster 1,
then steps the centroids the way the centroid-update step will. -/
def convCheck : List ℚ → ℕ → ℚ → ℚ → ℚ → ℚ → Bool
  | [], _, _, _, _, _ => true
  | x1 :: rest, t, S, Srest, c0, c1 =>
      decide (0 ≤ c0) && decide (c0 ≤ 100) &&
      decide (0 ≤ c1) && decide (c1 ≤ 100) &&
      decide (c0 < c1) &&
      decide ((x1 - c0) * (x1 - c0) ≤ (x1 - c1) * (x1 - c1)) &&
      decide (((100 : ℚ) - c1) * (100 - c1) < (100 - c0) * (100 - c0)) &&
      (match rest with
       | [] => true
       | x2 :: _ => decide ((x2 - c1) * (x2 - c1) < (x2 - c0) * (x2 - c0))) &&
      convCheck rest (t + 1) (S + x1) (Srest - x1)
        ((S + x1) / ((3 + t : ℕ) : ℚ))
        ((Srest - x1 + 300) / ((503 - t : ℕ) : ℚ))

/-- Boolean check that adjacent elements of a list are nondecreasing. -/
def ascBool : List ℚ → Bool
  | [] => true
  | [_] => true
  | x :: y :: r => decide (x ≤ y) && ascBool (y :: r)

/-- Boolean check that every element lies in `[0, 100]`. -/
def boundsBool : List ℚ → Bool
  | [] => true
  | x :: r => decide (0 ≤ x) && decide (x ≤ 100) && boundsBool r


/-! ## The original implementation (file 1): both accumulation
disciplines, and the true column distances of the improved layout -/

/-- The true squared Euclidean distance `Σ_k (object[k] - clusters[k][j])²`
between a point and centroid `j` of a `[numCoords][numClusters]` centroid
matrix. -/
def sqDistCol (object : List ℚ) (clusters : List (List ℚ)) (j : ℕ) : ℚ :=
  (List.zipWith (fun x crow => (x - crow.getD j 0) * (x - crow.getD j 0))
    object clusters).sum

/-- The C cast `(int)` applied to a `float` value: truncation toward zero. -/
def truncQ (q : ℚ) : ℤ := if 0 ≤ q then ⌊q⌋ else -⌊-q⌋

/-- `m[r][c]` with the usual out-of-range default. -/
def getMat (m : List (List ℚ)) (r c : ℕ) : ℚ := (m.getD r []).getD c 0

/-- `m[r][c] = v` (no effect out of range; the embedded runs only write in
range). -/
def setMat (m : List (List ℚ)) (r c : ℕ) (v : ℚ) : List (List ℚ) :=
  m.set r ((m.getD r []).set c v)

/-- `distArray` of the original file's atomic branch for object `i`: each
coordinate is read transposed and truncated (`(int)objects[k][i]`), and the
centroid matrix is read as `clusters[k][j]` although its rows are centroids. -/
def file1AtomicDist (objects clusters : List (List ℚ))
    (numCoords numClusters i : ℕ) : List ℚ :=
  (List.range numClusters).map (fun j =>
    ((List.range numCoords).map (fun k =>
      ((truncQ (getMat objects k i) : ℚ) - getMat clusters k j) *
        ((truncQ (getMat objects k i) : ℚ) - getMat clusters k j))).sum)

/-- One assignment pass of the original file's atomic branch (the atomic
updates commute in exact arithmetic, so the pass is their sequential
interleaving): the nearest scan runs over `file1AtomicDist` from the
`INT_MAX` sentinel, and the accumulators gather the transposed column
`objects[j][i]`. -/
def file1_atomic_pass (objects clusters : List (List ℚ))
    (numObjs numCoords numClusters : ℕ) (membership : List ℤ)
    (sizes : List ℕ) (sums : List (List ℚ)) : PassResult :=
  (List.range numObjs).foldl (fun r i =>
    let index := scanMin
      (file1AtomicDist objects clusters numCoords numClusters i) 0 0 sentinel
    let delta := if r.membership.getD i (-1) ≠ (index : ℤ) then r.delta + 1
      else r.delta
    let sums := (List.range numCoords).foldl (fun s j =>
      setMat s j index (getMat s j index + getMat objects j i)) r.sums
    ⟨r.membership.set i (index : ℤ), delta, bumpCount r.sizes index, sums⟩)
    ⟨membership, 0, sizes, sums⟩

/-- One assignment pass of the original file's thread-local branch run with
one OpenMP thread: the thread accumulates into private
`[numClusters][numCoords]` arrays using `find_nearest_cluster`, and the
serial reduction then adds them into the shared accumulators with the index
order of the write swapped (`newClusters[i][k] += local_newClusters[0][i][k]`
against the `[numCoords][numClusters]` allocation). -/
def file1_tl_pass (objects clusters : List (List ℚ))
    (numObjs numCoords numClusters : ℕ) (membership : List ℤ)
    (sizes : List ℕ) (sums : List (List ℚ)) : PassResult :=
  let r : PassResult := (List.range numObjs).foldl (fun r i =>
    let index := find_nearest_cluster (objects.getD i []) clusters
    let delta := if r.membership.getD i (-1) ≠ (index : ℤ) then r.delta + 1
      else r.delta
    let lsums := (List.range numCoords).foldl (fun s j =>
      setMat s index j (getMat s index j + getMat objects i j)) r.sums
    ⟨r.membership.set i (index : ℤ), delta, bumpCount r.sizes index, lsums⟩)
    ⟨membership, 0, List.replicate numClusters 0,
     List.replicate numClusters (List.replicate numCoords 0)⟩
  ⟨r.membership, r.delta,
   (List.range numClusters).foldl (fun s i =>
     s.set i (s.getD i 0 + r.sizes.getD i 0)) sizes,
   (List.range numClusters).foldl (fun s i =>
     (List.range numCoords).foldl (fun s2 k =>
       setMat s2 i k (getMat s2 i k + getMat r.sums i k)) s) sums⟩

/-- The original file's centroid-update step: `clusters[j][i] =
newClusters[j][i] / newClusterSize[i]` when the count exceeds 1, each read
accumulator entry then reset to 0, and the counts reset afterwards.
Returns (clusters, sums, sizes). -/
def file1_update (clusters sums : List (List ℚ)) (sizes : List ℕ)
    (numClusters numCoords : ℕ) :
    List (List ℚ) × List (List ℚ) × List ℕ :=
  let p := (List.range numClusters).foldl (fun p i =>
    (List.range numCoords).foldl (fun q j =>
      (if sizes.getD i 0 > 1 then
         setMat q.1 j i (getMat q.2 j i / (sizes.getD i 0 : ℚ))
       else q.1,
       setMat q.2 j i 0)) p) (clusters, sums)
  (p.1, p.2, (List.range numClusters).foldl (fun s i => s.set i 0) sizes)

/-- One body of the original file's `do … while` loop, in either accumulation
discipline. -/
def file1Body (is_perform_atomic : Bool) (objects : List (List ℚ))
    (numObjs numCoords numClusters : ℕ) (st : LoopState) : LoopState × ℕ :=
  let r := if is_perform_atomic then
      file1_atomic_pass objects st.clusters numObjs numCoords numClusters
        st.membership st.sizes st.sums
    else
      file1_tl_pass objects st.clusters numObjs numCoords numClusters
        st.membership st.sizes st.sums
  let u := file1_update st.clusters r.sums r.sizes numClusters numCoords
  (⟨u.1, r.membership, u.2.2, u.2.1⟩, r.delta)

/-- The original file's convergence loop (`do { … } while (delta > threshold
&& loop++ < 500)`). -/
def file1Go (is_perform_atomic : Bool) (objects : List (List ℚ))
    (numObjs numCoords numClusters : ℕ) (threshold : ℚ) :
    ℕ → LoopState → ℕ → LoopResult
  | 0, st, bodies =>
      let (st', d) := file1Body is_perform_atomic objects numObjs numCoords
        numClusters st
      let delta : ℚ := (d : ℚ) / (numObjs : ℚ)
      if delta ≤ threshold then ⟨st', bodies + 1, delta, true⟩
      else ⟨st', bodies + 1, delta, false⟩
  | fuel + 1, st, bodies =>
      let (st', d) := file1Body is_perform_atomic objects numObjs numCoords
        numClusters st
      let delta : ℚ := (d : ℚ) / (numObjs : ℚ)
      if delta ≤ threshold then ⟨st', bodies + 1, delta, true⟩
      else file1Go is_perform_atomic objects numObjs numCoords numClusters
        threshold fuel st' (bodies + 1)

/-- The original file's `omp_kmeans`: membership initialised to `-1`,
accumulators zeroed (`newClusters` is a zeroed `[numCoords][numClusters]`
block), the convergence loop run in the selected discipline, return 1. -/
def file1_kmeans (is_perform_atomic : Bool) (objects : List (List ℚ))
    (numCoords numClusters : ℕ) (threshold : ℚ)
    (clusters : List (List ℚ)) : KmeansResult :=
  let numObjs := objects.length
  let membership : List ℤ := List.replicate numObjs (-1)
  let sizes : List ℕ := List.replicate numClusters 0
  let sums : List (List ℚ) :=
    List.replicate numCoords (List.replicate numClusters 0)
  let r := file1Go is_perform_atomic objects numObjs numCoords numClusters
    threshold 500 ⟨clusters, membership, sizes, sums⟩ 0
  ⟨1, r.state.membership, r.state.clusters, r.loops, r.converged⟩

/-- One thread's private member counts in the original file's thread-local
branch: the chunk the static schedule hands the thread, folded over
`find_nearest_cluster`, starting from the zeroed private array. -/
def local_counts (clusters : List (List ℚ)) (K : ℕ)
    (chunk : List (List ℚ)) : List ℕ :=
  chunk.foldl (fun acc obj =>
    bumpCount acc (find_nearest_cluster obj clusters)) (List.replicate K 0)

/-- The serial reduction of the per-thread counts
(`newClusterSize[i] += local_newClusterSize[j][i]`) over the per-thread
chunks, starting from the zeroed shared array. -/
def merged_counts (clusters : List (List ℚ)) (K : ℕ)
    (chunks : List (List (List ℚ))) : List ℕ :=
  chunks.foldl (fun acc chunk =>
    List.zipWith (· + ·) acc (local_counts clusters K chunk))
    (List.replicate K 0)

theorem ascBool_chain : ∀ {l : List ℚ}, ascBool l = true →
    List.Chain' (· ≤ ·) l
  | [], _ => List.chain'_nil
  | [_], _ => List.chain'_singleton _
  | x :: y :: r, h => by
      simp only [ascBool, Bool.and_eq_true, decide_eq_true_eq] at h
      exact List.Chain'.cons h.1 (ascBool_chain h.2)

theorem ascBool_pairwise {l : List ℚ} (h : ascBool l = true) :
    l.Pairwise (· ≤ ·) :=
  List.chain'_iff_pairwise.mp (ascBool_chain h)

theorem boundsBool_forall : ∀ {l : List ℚ}, boundsBool l = true →
    ∀ y ∈ l, 0 ≤ y ∧ y ≤ 100
  | [], _, y, hy => absurd hy (List.not_mem_nil y)
  | x :: r, h, y, hy => by
      simp only [boundsBool, Bool.and_eq_true, decide_eq_true_eq] at h
      rcases List.mem_cons.mp hy with rfl | hy
      · exact ⟨h.1.1, h.1.2⟩
      · exact boundsBool_forall h.2 y hy

/-- Normal form of the improved search on a one-dimensional point and two
centroids. -/
theorem improved_nearest_pair (x c0 c1 : ℚ) :
    improved_nearest [x] [[c0, c1]] =
      if (x - c0) * (x - c0) < sentinel then
        (if (x - c1) * (x - c1) < (x - c0) * (x - c0) then 1 else 0)
      else (if (x - c1) * (x - c1) < sentinel then 1 else 0) := by
  simp only [improved_nearest, computeDistArray, List.zip_nil_left,
    List.foldl_nil, List.map_cons, List.map_nil, scanMin]

/-- A squared distance between two values of `[0, 100]` is below the
`INT_MAX` sentinel. -/
theorem dist_lt_sentinel {x c : ℚ} (hx0 : 0 ≤ x) (hx1 : x ≤ 100)
    (hc0 : 0 ≤ c) (hc1 : c ≤ 100) : (x - c) * (x - c) < sentinel := by
  unfold sentinel
  nlinarith

/-- One-dimensional choice lemma: the point prefers centroid `0`. -/
theorem nearest_pair_left {x c0 c1 : ℚ} (hx0 : 0 ≤ x) (hx1 : x ≤ 100)
    (hc00 : 0 ≤ c0) (hc01 : c0 ≤ 100)
    (hle : (x - c0) * (x - c0) ≤ (x - c1) * (x - c1)) :
    improved_nearest [x] [[c0, c1]] = 0 := by
  rw [improved_nearest_pair, if_pos (dist_lt_sentinel hx0 hx1 hc00 hc01),
    if_neg (not_lt.mpr hle)]

/-- One-dimensional choice lemma: the point strictly prefers centroid `1`. -/
theorem nearest_pair_right {x c0 c1 : ℚ} (hx0 : 0 ≤ x) (hx1 : x ≤ 100)
    (hc00 : 0 ≤ c0) (hc01 : c0 ≤ 100)
    (hlt : (x - c1) * (x - c1) < (x - c0) * (x - c0)) :
    improved_nearest [x] [[c0, c1]] = 1 := by
  rw [improved_nearest_pair, if_pos (dist_lt_sentinel hx0 hx1 hc00 hc01),
    if_pos hlt]

/-- Points left of a point preferring the left centroid also prefer it. -/
theorem left_mono {c0 c1 x y : ℚ} (hc : c0 ≤ c1) (hyx : y ≤ x)
    (h : (x - c0) * (x - c0) ≤ (x - c1) * (x - c1)) :
    (y - c0) * (y - c0) ≤ (y - c1) * (y - c1) := by
  nlinarith [mul_nonneg (sub_nonneg.mpr hc) (sub_nonneg.mpr hyx)]

/-- Points right of a point strictly preferring the right centroid also
strictly prefer it. -/
theorem right_mono {c0 c1 x y : ℚ} (hc : c0 ≤ c1) (hxy : x ≤ y)
    (h : (x - c1) * (x - c1) < (x - c0) * (x - c0)) :
    (y - c1) * (y - c1) < (y - c0) * (y - c0) := by
  nlinarith [mul_nonneg (sub_nonneg.mpr hc) (sub_nonneg.mpr hxy)]

/-- The assignment pass over a concatenation is the pass over the first
part followed by the pass over the second, threading the accumulators. -/
theorem assignPass_append (cl : List (List ℚ)) :
    ∀ (L1 L2 : List (List ℚ)) (M : List ℤ) (sizes : List ℕ)
      (sums : List (List ℚ)) (d : ℕ),
    assignPass cl (L1 ++ L2) M sizes sums d =
      ⟨(assignPass cl L1 M sizes sums d).membership ++
        (assignPass cl L2 (M.drop L1.length)
          (assignPass cl L1 M sizes sums d).sizes
          (assignPass cl L1 M sizes sums d).sums
          (assignPass cl L1 M sizes sums d).delta).membership,
       (assignPass cl L2 (M.drop L1.length)
          (assignPass cl L1 M sizes sums d).sizes
          (assignPass cl L1 M sizes sums d).sums
          (assignPass cl L1 M sizes sums d).delta).delta,
       (assignPass cl L2 (M.drop L1.length)
          (assignPass cl L1 M sizes sums d).sizes
          (assignPass cl L1 M sizes sums d).sums
          (assignPass cl L1 M sizes sums d).delta).sizes,
       (assignPass cl L2 (M.drop L1.length)
          (assignPass cl L1 M sizes sums d).sizes
          (assignPass cl L1 M sizes sums d).sums
          (assignPass cl L1 M sizes sums d).delta).sums⟩
  | [], L2, M, sizes, sums, d => by simp [assignPass]
  | obj :: objs, L2, M, sizes, sums, d => by
      simp only [List.cons_append, assignPass, ← List.drop_one,
        List.append_eq]
      rw [assignPass_append cl objs L2]
      simp [List.drop_drop, List.length_cons, Nat.add_comm]

/-- Assignment pass over a block of one-dimensional points that all choose
cluster `0`, whose previous membership entries all equal `v`. -/
theorem assignPass_seg0 (c0 c1 : ℚ) :
    ∀ (xs : List ℚ) (v : ℤ) (M : List ℤ) (n0 n1 : ℕ) (s0 s1 : ℚ) (d : ℕ),
    (∀ x ∈ xs, improved_nearest [x] [[c0, c1]] = 0) →
    assignPass [[c0, c1]] (oneD xs) (List.replicate xs.length v ++ M)
      [n0, n1] [[s0, s1]] d =
      ⟨List.replicate xs.length 0, d + (if v = 0 then 0 else xs.length),
       [n0 + xs.length, n1], [[s0 + xs.sum, s1]]⟩
  | [], v, M, n0, n1, s0, s1, d, _ => by simp [oneD, assignPass]
  | x :: xs, v, M, n0, n1, s0, s1, d, h => by
      have hx := h x (List.mem_cons_self x xs)
      have ih := assignPass_seg0 c0 c1 xs v M (n0 + 1) n1 (s0 + x) s1
        (if v ≠ (0 : ℤ) then d + 1 else d)
        (fun y hy => h y (List.mem_cons_of_mem x hy))
      simp only [oneD, List.map_cons, List.length_cons, assignPass, hx,
        List.replicate_succ, List.cons_append, List.headD_cons,
        List.tail_cons, Nat.cast_zero, bumpCount, addObjectToSums,
        List.zipWith_cons_cons, addAt, List.zipWith_nil_right] at *
      rw [ih]
      by_cases hv : v = 0
      · simp [hv, List.replicate_succ, Nat.add_comm, add_assoc]
      · simp [hv, List.replicate_succ, Nat.add_comm, add_assoc]

/-- Assignment pass over a block of one-dimensional points that all choose
cluster `1`, whose previous membership entries all equal `v`. -/
theorem assignPass_seg1 (c0 c1 : ℚ) :
    ∀ (xs : List ℚ) (v : ℤ) (M : List ℤ) (n0 n1 : ℕ) (s0 s1 : ℚ) (d : ℕ),
    (∀ x ∈ xs, improved_nearest [x] [[c0, c1]] = 1) →
    assignPass [[c0, c1]] (oneD xs) (List.replicate xs.length v ++ M)
      [n0, n1] [[s0, s1]] d =
      ⟨List.replicate xs.length 1, d + (if v = 1 then 0 else xs.length),
       [n0, n1 + xs.length], [[s0, s1 + xs.sum]]⟩
  | [], v, M, n0, n1, s0, s1, d, _ => by simp [oneD, assignPass]
  | x :: xs, v, M, n0, n1, s0, s1, d, h => by
      have hx := h x (List.mem_cons_self x xs)
      have ih := assignPass_seg1 c0 c1 xs v M n0 (n1 + 1) s0 (s1 + x)
        (if v ≠ (1 : ℤ) then d + 1 else d)
        (fun y hy => h y (List.mem_cons_of_mem x hy))
      simp only [oneD, List.map_cons, List.length_cons, assignPass, hx,
        List.replicate_succ, List.cons_append, List.headD_cons,
        List.tail_cons, Nat.cast_one, bumpCount, addObjectToSums,
        List.zipWith_cons_cons, addAt, List.zipWith_nil_right] at *
      rw [ih]
      by_cases hv : v = 1
      · simp [hv, List.replicate_succ, Nat.add_comm, add_assoc]
      · simp [hv, List.replicate_succ, Nat.add_comm, add_assoc]

theorem oneD_append (xs ys : List ℚ) :
    oneD (xs ++ ys) = oneD xs ++ oneD ys := by
  simp [oneD]

theorem oneD_length (xs : List ℚ) : (oneD xs).length = xs.length := by
  simp [oneD]

set_option maxRecDepth 100000 in
theorem chainQ_length : chainQ.length = 501 := by with_unfolding_all decide

set_option maxRecDepth 100000 in
theorem chainQ_sorted : chainQ.Pairwise (· ≤ ·) :=
  ascBool_pairwise (by with_unfolding_all decide)

set_option maxRecDepth 100000 in
theorem chainQ_bounds : ∀ y ∈ chainQ, 0 ≤ y ∧ y ≤ 100 :=
  boundsBool_forall (by with_unfolding_all decide)

theorem sum_map_div1000 : ∀ l : List ℤ,
    (l.map (fun n : ℤ => (n : ℚ) / 1000)).sum = ((l.sum : ℤ) : ℚ) / 1000
  | [] => by simp
  | n :: r => by
      rw [List.map_cons, List.sum_cons, sum_map_div1000 r, List.sum_cons]
      push_cast
      ring

set_option maxRecDepth 100000 in
theorem chainQ_sum : chainQ.sum = 22914939 / 1000 := by
  have h2 : chainC2.sum = 22914939 := by with_unfolding_all decide
  rw [chainQ, sum_map_div1000, h2]
  norm_num

/-- One assignment pass over the slow-convergence input from a conveyor
state: the anchors and the first `t + 1` chain points go to cluster 0,
everything else to cluster 1. -/
theorem pass_structured (pre rest : List ℚ) (x1 c0 c1 : ℚ) (v0 v1 : ℤ)
    (hsplit : chainQ = pre ++ x1 :: rest)
    (hb00 : 0 ≤ c0) (hb01 : c0 ≤ 100) (hb10 : 0 ≤ c1) (hb11 : c1 ≤ 100)
    (hlt : c0 < c1)
    (hx1 : (x1 - c0) * (x1 - c0) ≤ (x1 - c1) * (x1 - c1))
    (hfar : ((100 : ℚ) - c1) * (100 - c1) < (100 - c0) * (100 - c0))
    (hrest : ∀ y ∈ rest, (y - c1) * (y - c1) < (y - c0) * (y - c0)) :
    assignPass [[c0, c1]] objsC2
      (List.replicate (2 + pre.length) v0 ++
        List.replicate (504 - pre.length) v1) [0, 0] [[0, 0]] 0 =
    ⟨List.replicate (3 + pre.length) 0 ++
       List.replicate (503 - pre.length) 1,
     (if v0 = 0 then 0 else (2 + pre.length)) + (if v1 = 0 then 0 else 1)
       + (if v1 = 1 then 0 else (503 - pre.length)),
     [3 + pre.length, 503 - pre.length],
     [[pre.sum + x1, rest.sum + 300]]⟩ := by
  have hx1mem : x1 ∈ chainQ := by
    rw [hsplit]; exact List.mem_append_right _ (List.mem_cons_self _ _)
  have hx1b := chainQ_bounds x1 hx1mem
  have hlen501 : pre.length + (rest.length + 1) = 501 := by
    have h := chainQ_length
    rw [hsplit] at h
    simpa [List.length_append] using h
  have hpw : (pre ++ x1 :: rest).Pairwise (· ≤ ·) := hsplit ▸ chainQ_sorted
  have hprele : ∀ y ∈ pre, y ≤ x1 := fun y hy =>
    (List.pairwise_append.mp hpw).2.2 y hy x1 (List.mem_cons_self _ _)
  have hch0 : ∀ y ∈ List.replicate 2 (0 : ℚ) ++ pre,
      improved_nearest [y] [[c0, c1]] = 0 := by
    intro y hy
    rcases List.mem_append.mp hy with hy | hy
    · have hy0 : y = 0 := List.eq_of_mem_replicate hy
      subst hy0
      exact nearest_pair_left le_rfl (by norm_num) hb00 hb01
        (left_mono hlt.le hx1b.1 hx1)
    · have hyb := chainQ_bounds y
        (by rw [hsplit]; exact List.mem_append_left _ hy)
      exact nearest_pair_left hyb.1 hyb.2 hb00 hb01
        (left_mono hlt.le (hprele y hy) hx1)
  have hchx1 : ∀ y ∈ [x1], improved_nearest [y] [[c0, c1]] = 0 := by
    intro y hy
    rcases List.mem_singleton.mp hy with rfl
    exact nearest_pair_left hx1b.1 hx1b.2 hb00 hb01 hx1
  have hch1 : ∀ y ∈ rest ++ List.replicate 3 (100 : ℚ),
      improved_nearest [y] [[c0, c1]] = 1 := by
    intro y hy
    rcases List.mem_append.mp hy with hy | hy
    · have hyb := chainQ_bounds y
        (by rw [hsplit]
            exact List.mem_append_right _ (List.mem_cons_of_mem _ hy))
      exact nearest_pair_right hyb.1 hyb.2 hb00 hb01 (hrest y hy)
    · have hy100 : y = 100 := List.eq_of_mem_replicate hy
      subst hy100
      exact nearest_pair_right (by norm_num) le_rfl hb00 hb01 hfar
  have hobjs : objsC2 =
      oneD (List.replicate 2 0 ++ pre) ++
        (oneD [x1] ++ oneD (rest ++ List.replicate 3 100)) := by
    rw [← oneD_append, ← oneD_append, objsC2, allQ, hsplit]
    congr 1
    simp [List.append_assoc]
  have h504 : 504 - pre.length = 1 + (503 - pre.length) := by omega
  have e1 : List.replicate (2 + pre.length) v0 =
      List.replicate (List.replicate 2 (0 : ℚ) ++ pre).length v0 := by
    congr 1
    simp only [List.length_append, List.length_replicate]
  have e2 : List.replicate 1 v1 =
      List.replicate ([x1] : List ℚ).length v1 := by simp
  have e3 : List.replicate (503 - pre.length) v1 =
      List.replicate (rest ++ List.replicate 3 (100 : ℚ)).length v1 ++
        ([] : List ℤ) := by
    rw [List.append_nil]
    congr 1
    simp only [List.length_append, List.length_replicate]
    omega
  rw [hobjs, assignPass_append, assignPass_append, e1]
  rw [assignPass_seg0 c0 c1 _ v0 _ 0 0 0 0 0 hch0]
  rw [List.drop_left'
    (by simp [oneD_length] :
      (List.replicate (List.replicate 2 (0 : ℚ) ++ pre).length v0).length =
        (oneD (List.replicate 2 (0 : ℚ) ++ pre)).length)]
  rw [h504, List.replicate_add, e2]
  rw [assignPass_seg0 c0 c1 [x1] v1 _ _ _ _ _ _ hchx1]
  rw [List.drop_left'
    (by simp [oneD_length] :
      (List.replicate ([x1] : List ℚ).length v1).length =
        (oneD [x1]).length)]
  rw [e3]
  rw [assignPass_seg1 c0 c1 _ v1 _ _ _ _ _ _ hch1]
  simp only [oneD_length, List.length_append, List.length_replicate,
    List.length_singleton, List.length_nil, List.sum_append,
    List.sum_replicate, List.sum_singleton, List.sum_nil,
    List.length_cons, smul_eq_mul, PassResult.mk.injEq]
  refine ⟨?_, ?_, ?_, ?_⟩
  · rw [← List.append_assoc, ← List.replicate_add]
    congr 2 <;> omega
  · by_cases hv0 : v0 = 0 <;> by_cases hv1a : v1 = 0 <;>
      by_cases hv1b : v1 = 1 <;> simp [hv0, hv1a, hv1b] <;> omega
  · simp only [List.cons.injEq, and_true]
    refine ⟨by omega, by omega⟩
  · simp only [List.cons.injEq, and_true]
    norm_num
    try ring

/-- One loop body advances a conveyor state: the next chain point defects to
cluster 0, the membership entry for it changes, and the centroids are
recomputed as member means. -/
theorem body_step (pre rest : List ℚ) (x1 c0 c1 : ℚ) (v0 v1 : ℤ)
    (hsplit : chainQ = pre ++ x1 :: rest) (hv1 : v1 ≠ 0)
    (hb00 : 0 ≤ c0) (hb01 : c0 ≤ 100) (hb10 : 0 ≤ c1) (hb11 : c1 ≤ 100)
    (hlt : c0 < c1)
    (hx1 : (x1 - c0) * (x1 - c0) ≤ (x1 - c1) * (x1 - c1))
    (hfar : ((100 : ℚ) - c1) * (100 - c1) < (100 - c0) * (100 - c0))
    (hrest : ∀ y ∈ rest, (y - c1) * (y - c1) < (y - c0) * (y - c0)) :
    ∃ d : ℕ, 1 ≤ d ∧
      loopBody objsC2
        ⟨[[c0, c1]],
         List.replicate (2 + pre.length) v0 ++
           List.replicate (504 - pre.length) v1, [0, 0], [[0, 0]]⟩ =
      (⟨[[(pre.sum + x1) / ((3 + pre.length : ℕ) : ℚ),
          (rest.sum + 300) / ((503 - pre.length : ℕ) : ℚ)]],
        List.replicate (3 + pre.length) 0 ++
          List.replicate (503 - pre.length) 1, [0, 0], [[0, 0]]⟩, d) := by
  have hlen501 : pre.length + (rest.length + 1) = 501 := by
    have h := chainQ_length
    rw [hsplit] at h
    simpa [List.length_append] using h
  have hpass := pass_structured pre rest x1 c0 c1 v0 v1 hsplit hb00 hb01
    hb10 hb11 hlt hx1 hfar hrest
  refine ⟨(if v0 = 0 then 0 else (2 + pre.length)) +
    (if v1 = 0 then 0 else 1) +
    (if v1 = 1 then 0 else (503 - pre.length)), ?_, ?_⟩
  · rw [if_neg hv1]
    omega
  · simp only [loopBody, hpass]
    simp only [update_centroids, updateRow, zeroSizes, zeroSums,
      List.map_cons, List.map_nil]
    rw [if_pos (by omega : 3 + pre.length > 1),
      if_pos (by omega : 503 - pre.length > 1)]

/-- The convergence loop sweeps the conveyor: as long as the certificate
holds and the chain has not run out, every remaining continuation executes
one more body and the loop never converges. -/
theorem conveyor_go :
    ∀ (fuel : ℕ) (pre suffix : List ℚ) (c0 c1 : ℚ) (v0 v1 : ℤ)
      (bodies : ℕ),
    chainQ = pre ++ suffix →
    v1 ≠ 0 →
    convCheck suffix pre.length pre.sum suffix.sum c0 c1 = true →
    fuel + 1 ≤ suffix.length →
    (loopGo objsC2 506 0 fuel
      ⟨[[c0, c1]],
       List.replicate (2 + pre.length) v0 ++
         List.replicate (504 - pre.length) v1, [0, 0], [[0, 0]]⟩
      bodies).loops = bodies + (fuel + 1) ∧
    (loopGo objsC2 506 0 fuel
      ⟨[[c0, c1]],
       List.replicate (2 + pre.length) v0 ++
         List.replicate (504 - pre.length) v1, [0, 0], [[0, 0]]⟩
      bodies).converged = false := by
  intro fuel
  induction fuel with
  | zero =>
      intro pre suffix c0 c1 v0 v1 bodies hsplit hv1 hcheck hfuel
      match suffix, hcheck, hfuel with
      | x1 :: rest, hcheck, hfuel =>
        simp only [convCheck, Bool.and_eq_true, decide_eq_true_eq] at hcheck
        have hrest : ∀ y ∈ rest, (y - c1) * (y - c1) < (y - c0) * (y - c0) := by
          have h8 := hcheck.1.2
          match rest, hsplit, h8 with
          | [], _, _ => exact fun y hy => absurd hy (List.not_mem_nil y)
          | x2 :: r2, hsplit, h8 =>
            have h8' : (x2 - c1) * (x2 - c1) < (x2 - c0) * (x2 - c0) := by
              simpa using h8
            have hpw : (x1 :: x2 :: r2).Pairwise (· ≤ ·) :=
              (List.pairwise_append.mp (hsplit ▸ chainQ_sorted)).2.1
            intro y hy
            rcases List.mem_cons.mp hy with rfl | hy
            · exact h8'
            · exact right_mono hcheck.1.1.1.1.2.le
                ((List.pairwise_cons.mp (List.pairwise_cons.mp hpw).2).1 y hy)
                h8'
        obtain ⟨d, hd1, hbody⟩ := body_step pre rest x1 c0 c1 v0 v1 hsplit
          hv1 hcheck.1.1.1.1.1.1.1.1 hcheck.1.1.1.1.1.1.1.2
          hcheck.1.1.1.1.1.1.2 hcheck.1.1.1.1.1.2 hcheck.1.1.1.1.2
          hcheck.1.1.1.2 hcheck.1.1.2 hrest
        have hdpos : ¬((d : ℚ) / ((506 : ℕ) : ℚ) ≤ 0) := by
          rw [not_le]
          apply div_pos
          · exact_mod_cast hd1
          · norm_num
        simp only [loopGo, hbody]
        rw [if_neg hdpos]
        constructor <;> simp
  | succ fuel ih =>
      intro pre suffix c0 c1 v0 v1 bodies hsplit hv1 hcheck hfuel
      match suffix, hcheck, hfuel with
      | x1 :: rest, hcheck, hfuel =>
        simp only [convCheck, Bool.and_eq_true, decide_eq_true_eq] at hcheck
        have hrest : ∀ y ∈ rest, (y - c1) * (y - c1) < (y - c0) * (y - c0) := by
          have h8 := hcheck.1.2
          match rest, hsplit, h8 with
          | [], _, _ => exact fun y hy => absurd hy (List.not_mem_nil y)
          | x2 :: r2, hsplit, h8 =>
            have h8' : (x2 - c1) * (x2 - c1) < (x2 - c0) * (x2 - c0) := by
              simpa using h8
            have hpw : (x1 :: x2 :: r2).Pairwise (· ≤ ·) :=
              (List.pairwise_append.mp (hsplit ▸ chainQ_sorted)).2.1
            intro y hy
            rcases List.mem_cons.mp hy with rfl | hy
            · exact h8'
            · exact right_mono hcheck.1.1.1.1.2.le
                ((List.pairwise_cons.mp (List.pairwise_cons.mp hpw).2).1 y hy)
                h8'
        obtain ⟨d, hd1, hbody⟩ := body_step pre rest x1 c0 c1 v0 v1 hsplit
          hv1 hcheck.1.1.1.1.1.1.1.1 hcheck.1.1.1.1.1.1.1.2
          hcheck.1.1.1.1.1.1.2 hcheck.1.1.1.1.1.2 hcheck.1.1.1.1.2
          hcheck.1.1.1.2 hcheck.1.1.2 hrest
        have hdpos : ¬((d : ℚ) / ((506 : ℕ) : ℚ) ≤ 0) := by
          rw [not_le]
          apply div_pos
          · exact_mod_cast hd1
          · norm_num
        simp only [loopGo, hbody]
        rw [if_neg hdpos]
        have hrec := hcheck.2
        rw [List.sum_cons, add_sub_cancel_left] at hrec
        have hih := ih (pre ++ [x1]) rest
          ((pre.sum + x1) / ((3 + pre.length : ℕ) : ℚ))
          ((rest.sum + 300) / ((503 - pre.length : ℕ) : ℚ))
          0 1 (bodies + 1)
          (by rw [hsplit]; simp)
          one_ne_zero
          (by simpa [List.sum_append, List.length_append] using hrec)
          (by simpa using Nat.le_of_succ_le_succ hfuel)
        rw [show (2 + (pre ++ [x1]).length) = 3 + pre.length by
            simp only [List.length_append, List.length_singleton]; omega,
          show (504 - (pre ++ [x1]).length) = 503 - pre.length by
            simp only [List.length_append, List.length_singleton]
            omega] at hih
        refine ⟨?_, ?_⟩
        · rw [hih.1]
          omega
        · exact hih.2

set_option maxRecDepth 1000000 in
set_option maxHeartbeats 16000000 in
theorem convCheck_lit :
    convCheck chainQ 0 0 (22914939 / 1000) 0 (1757 / 100) = true := by
  with_unfolding_all decide

set_option maxRecDepth 100000 in
theorem objsC2_length : objsC2.length = 506 := by
  with_unfolding_all decide

/-- `omp_kmeans` in explicit `loopGo` form: the loop-body count. -/
theorem omp_kmeans_loops_eq (flag : Bool) (objects : List (List ℚ))
    (K : ℕ) (thr : ℚ) (clusters : List (List ℚ)) :
    (omp_kmeans flag objects K thr clusters).loops =
      (loopGo objects objects.length thr 500
        ⟨clusters, List.replicate objects.length (-1), List.replicate K 0,
         clusters.map (fun row => row.map (fun _ => 0))⟩ 0).loops := rfl

/-- `omp_kmeans` in explicit `loopGo` form: the convergence flag. -/
theorem omp_kmeans_converged_eq (flag : Bool) (objects : List (List ℚ))
    (K : ℕ) (thr : ℚ) (clusters : List (List ℚ)) :
    (omp_kmeans flag objects K thr clusters).converged =
      (loopGo objects objects.length thr 500
        ⟨clusters, List.replicate objects.length (-1), List.replicate K 0,
         clusters.map (fun row => row.map (fun _ => 0))⟩ 0).converged := rfl

set_option maxRecDepth 100000 in
/-- The initial loop state of the slow-convergence run, written as
`omp_kmeans` builds it, equals its conveyor form. -/
theorem stateC2_eq :
    (⟨clustersC2, List.replicate 506 (-1), List.replicate 2 0,
      clustersC2.map (fun row => row.map (fun _ => 0))⟩ : LoopState) =
    ⟨[[0, 1757 / 100]],
     List.replicate (2 + List.length ([] : List ℚ)) (-1) ++
       List.replicate (504 - List.length ([] : List ℚ)) (-1),
     [0, 0], [[0, 0]]⟩ := by
  with_unfolding_all decide

/-- The convergence loop on the slow-convergence input uses all 501
bodies and exits at the cap. -/
theorem conveyor_top :
    (loopGo objsC2 506 0 500
      ⟨clustersC2, List.replicate 506 (-1), List.replicate 2 0,
       clustersC2.map (fun row => row.map (fun _ => 0))⟩ 0).loops = 501 ∧
    (loopGo objsC2 506 0 500
      ⟨clustersC2, List.replicate 506 (-1), List.replicate 2 0,
       clustersC2.map (fun row => row.map (fun _ => 0))⟩ 0).converged
      = false := by
  have hcheck : convCheck chainQ 0 0 chainQ.sum 0 (1757 / 100) = true := by
    rw [chainQ_sum]
    exact convCheck_lit
  have h := conveyor_go 500 [] chainQ 0 (1757 / 100) (-1) (-1) 0
    (by simp) (by norm_num)
    (by simpa using hcheck)
    (by rw [chainQ_length])
  rw [stateC2_eq]
  exact ⟨h.1.trans (by norm_num), h.2⟩

/-- Running the improved `omp_kmeans` on the slow-convergence input
executes 501 loop bodies and exits at the iteration cap, not converged. -/
theorem run_objsC2 :
    (omp_kmeans false objsC2 2 0 clustersC2).loops = 501 ∧
    (omp_kmeans false objsC2 2 0 clustersC2).converged = false := by
  rw [omp_kmeans_loops_eq, omp_kmeans_converged_eq, objsC2_length]
  exact conveyor_top

/-- The loop executes at most `fuel + 1` further bodies, and exactly that
many when it never converges. -/
theorem loopGo_cap (objects : List (List ℚ)) (numObjs : ℕ) (thr : ℚ) :
    ∀ (fuel : ℕ) (st : LoopState) (bodies : ℕ),
    (loopGo objects numObjs thr fuel st bodies).loops ≤ bodies + fuel + 1 ∧
    ((loopGo objects numObjs thr fuel st bodies).converged = false →
      (loopGo objects numObjs thr fuel st bodies).loops = bodies + fuel + 1)
  | 0, st, bodies => by
      rcases hb : loopBody objects st with ⟨st', d⟩
      simp only [loopGo, hb]
      by_cases h : ((d : ℚ) / (numObjs : ℚ) ≤ thr) <;> simp [h]
  | fuel + 1, st, bodies => by
      rcases hb : loopBody objects st with ⟨st', d⟩
      simp only [loopGo, hb]
      by_cases h : ((d : ℚ) / (numObjs : ℚ) ≤ thr)
      · simp [h]
      · simp only [h, if_false]
        have ih := loopGo_cap objects numObjs thr fuel st' (bodies + 1)
        refine ⟨by omega, fun hc => ?_⟩
        rw [ih.2 hc]
        omega

/-! ### Centroid-update lemmas (claims C3, C4) -/

theorem updateRow_nil_srow : ∀ (crow : List ℚ) (sizes : List ℕ),
    updateRow crow [] sizes = crow
  | [], _ => rfl
  | _ :: _, _ => rfl

theorem updateRow_getD_stay : ∀ (crow srow : List ℚ) (sizes : List ℕ)
    (i : ℕ), sizes.getD i 0 ≤ 1 →
    (updateRow crow srow sizes).getD i 0 = crow.getD i 0
  | [], srow, sizes, i, _ => by cases srow <;> cases sizes <;> rfl
  | _ :: _, [], sizes, i, _ => by cases sizes <;> rfl
  | _ :: _, _ :: _, [], i, _ => rfl
  | c :: cs, s :: ss, n :: ns, 0, h => by
      simp only [updateRow, List.getD_cons_zero]
      rw [if_neg (by simpa using h)]
  | c :: cs, s :: ss, n :: ns, i + 1, h => by
      simp only [updateRow, List.getD_cons_succ]
      exact updateRow_getD_stay cs ss ns i (by simpa using h)

theorem updateRow_getD_div : ∀ (crow srow : List ℚ) (sizes : List ℕ)
    (i : ℕ), i < crow.length → i < srow.length → 1 < sizes.getD i 0 →
    (updateRow crow srow sizes).getD i 0 =
      srow.getD i 0 / (sizes.getD i 0 : ℚ)
  | [], _, _, i, h, _, _ => absurd h (by simp)
  | _ :: _, [], _, i, _, h, _ => absurd h (by simp)
  | _ :: _, _ :: _, [], i, _, _, h => absurd h (by simp)
  | c :: cs, s :: ss, n :: ns, 0, _, _, h => by
      simp only [updateRow, List.getD_cons_zero]
      rw [if_pos (by simpa using h)]
  | c :: cs, s :: ss, n :: ns, i + 1, h1, h2, h3 => by
      simp only [updateRow, List.getD_cons_succ]
      exact updateRow_getD_div cs ss ns i (by simpa using h1)
        (by simpa using h2) (by simpa using h3)

theorem update_centroids_getD : ∀ (clusters sums : List (List ℚ))
    (sizes : List ℕ) (j : ℕ),
    (update_centroids clusters sums sizes).getD j [] =
      updateRow (clusters.getD j []) (sums.getD j []) sizes
  | [], sums, sizes, j => by
      cases sums <;> simp [update_centroids, updateRow]
  | crow :: crows, [], sizes, j => by
      simp only [update_centroids, List.getD_nil, updateRow_nil_srow]
  | crow :: crows, srow :: srows, sizes, 0 => by
      simp [update_centroids]
  | crow :: crows, srow :: srows, sizes, j + 1 => by
      simp only [update_centroids, List.getD_cons_succ]
      exact update_centroids_getD crows srows sizes j

theorem zeroSizes_mem (sizes : List ℕ) : ∀ n ∈ zeroSizes sizes, n = 0 := by
  intro n hn
  rcases List.mem_map.mp hn with ⟨a, _, h⟩
  exact h.symm

theorem zeroSums_mem (sums : List (List ℚ)) :
    ∀ row ∈ zeroSums sums, ∀ q ∈ row, q = 0 := by
  intro row hrow q hq
  rcases List.mem_map.mp hrow with ⟨r, _, hrw⟩
  rcases List.mem_map.mp (hrw ▸ hq) with ⟨a, _, h⟩
  exact h.symm

/-- C3: a cluster whose member count in a completed assignment pass is 0
or 1 keeps every coordinate of its centroid unchanged through the
centroid-update step. -/
theorem C3_singleton_stability (objects : List (List ℚ)) (st : LoopState)
    (i j : ℕ)
    (hcount : (assignPass st.clusters objects st.membership st.sizes
      st.sums 0).sizes.getD i 0 ≤ 1) :
    (((loopBody objects st).1.clusters.getD j []).getD i 0 =
      (st.clusters.getD j []).getD i 0) := by
  have h1 : (loopBody objects st).1.clusters =
      update_centroids st.clusters
        (assignPass st.clusters objects st.membership st.sizes st.sums
          0).sums
        (assignPass st.clusters objects st.membership st.sizes st.sums
          0).sizes := rfl
  rw [h1, update_centroids_getD, updateRow_getD_stay _ _ _ _ hcount]

/-- Closed instance of C3: a singleton cluster and an empty cluster both
keep their centroid. -/
theorem C3_singleton_stability_witness :
    ((loopBody [[5]] ⟨[[0, 10]], [-1], [0, 0], [[0, 0]]⟩).1.clusters.getD
      0 []).getD 0 0 =
      ((([[0, 10]] : List (List ℚ)).getD 0 []).getD 0 0) :=
  C3_singleton_stability [[5]] ⟨[[0, 10]], [-1], [0, 0], [[0, 0]]⟩ 0 0
    (by with_unfolding_all decide)

/-- C4: a cluster whose member count after a completed assignment pass
exceeds 1 has each centroid coordinate replaced by the accumulated sum
divided by the count, and afterwards the accumulators are all reset to
zero. -/
theorem C4_centroid_mean (objects : List (List ℚ)) (st : LoopState)
    (i j : ℕ)
    (hi : i < (st.clusters.getD j []).length)
    (his : i < ((assignPass st.clusters objects st.membership st.sizes
      st.sums 0).sums.getD j []).length)
    (hcount : 1 < (assignPass st.clusters objects st.membership st.sizes
      st.sums 0).sizes.getD i 0) :
    (((loopBody objects st).1.clusters.getD j []).getD i 0 =
      ((assignPass st.clusters objects st.membership st.sizes st.sums
        0).sums.getD j []).getD i 0 /
        ((assignPass st.clusters objects st.membership st.sizes st.sums
          0).sizes.getD i 0 : ℚ)) ∧
    (∀ n ∈ (loopBody objects st).1.sizes, n = 0) ∧
    (∀ row ∈ (loopBody objects st).1.sums, ∀ q ∈ row, q = 0) := by
  have h1 : (loopBody objects st).1.clusters =
      update_centroids st.clusters
        (assignPass st.clusters objects st.membership st.sizes st.sums
          0).sums
        (assignPass st.clusters objects st.membership st.sizes st.sums
          0).sizes := rfl
  refine ⟨?_, ?_, ?_⟩
  · rw [h1, update_centroids_getD, updateRow_getD_div _ _ _ _ hi his hcount]
  · exact zeroSizes_mem _
  · exact zeroSums_mem _

/-- Closed instance of C4: two points in cluster 0 give centroid 4/2. -/
theorem C4_centroid_mean_witness :
    (((loopBody [[1], [3]] ⟨[[0, 100]], [-1, -1], [0, 0],
        [[0, 0]]⟩).1.clusters.getD 0 []).getD 0 0 =
      ((assignPass [[0, 100]] [[1], [3]] [-1, -1] [0, 0] [[0, 0]]
        0).sums.getD 0 []).getD 0 0 /
        ((assignPass [[0, 100]] [[1], [3]] [-1, -1] [0, 0] [[0, 0]]
          0).sizes.getD 0 0 : ℚ)) ∧
    (∀ n ∈ (loopBody [[1], [3]] ⟨[[0, 100]], [-1, -1], [0, 0],
      [[0, 0]]⟩).1.sizes, n = 0) ∧
    (∀ row ∈ (loopBody [[1], [3]] ⟨[[0, 100]], [-1, -1], [0, 0],
      [[0, 0]]⟩).1.sums, ∀ q ∈ row, q = 0) :=
  C4_centroid_mean [[1], [3]] ⟨[[0, 100]], [-1, -1], [0, 0], [[0, 0]]⟩ 0 0
    (by with_unfolding_all decide) (by with_unfolding_all decide)
    (by with_unfolding_all decide)

/-! ### Delta counting and convergence (claim C5) -/

theorem getD_zero_headD (M : List ℤ) : M.getD 0 (-1) = M.headD (-1) := by
  cases M <;> rfl

theorem getD_tail (M : List ℤ) (i : ℕ) (d : ℤ) :
    M.tail.getD i d = M.getD (i + 1) d := by
  cases M <;> simp

theorem assignPass_delta (cl : List (List ℚ)) :
    ∀ (objs : List (List ℚ)) (M : List ℤ) (sizes : List ℕ)
      (sums : List (List ℚ)) (d : ℕ),
    (assignPass cl objs M sizes sums d).delta = d +
      ((List.range objs.length).filter (fun i =>
        decide (M.getD i (-1) ≠
          ((improved_nearest (objs.getD i []) cl : ℕ) : ℤ)))).length
  | [], M, sizes, sums, d => by simp [assignPass]
  | obj :: objs, M, sizes, sums, d => by
      have hrec := assignPass_delta cl objs M.tail
        (bumpCount sizes (improved_nearest obj cl))
        (addObjectToSums sums obj (improved_nearest obj cl))
        (if M.headD (-1) ≠ ((improved_nearest obj cl : ℕ) : ℤ) then d + 1
          else d)
      simp only [assignPass]
      rw [hrec]
      rw [List.length_cons, List.range_succ_eq_map, List.filter_cons]
      have hmap : (((List.range objs.length).map Nat.succ).filter (fun i =>
          decide (M.getD i (-1) ≠
            ((improved_nearest ((obj :: objs).getD i []) cl : ℕ) :
              ℤ)))).length =
          ((List.range objs.length).filter (fun i =>
            decide (M.tail.getD i (-1) ≠
              ((improved_nearest (objs.getD i []) cl : ℕ) : ℤ)))).length := by
        rw [List.filter_map, List.length_map]
        congr 1
        apply List.filter_congr
        intro i _
        simp only [Function.comp_apply, Nat.succ_eq_add_one,
          List.getD_cons_succ, getD_tail]
      by_cases h : M.headD (-1) = ((improved_nearest obj cl : ℕ) : ℤ)
      · rw [if_neg (not_not_intro h)]
        rw [if_neg (by
          simp only [decide_eq_true_eq, List.getD_cons_zero,
            getD_zero_headD, not_not]
          exact h)]
        rw [hmap]
      · rw [if_pos h, if_pos (by
          simp only [decide_eq_true_eq, List.getD_cons_zero,
            getD_zero_headD]
          exact h)]
        rw [List.length_cons, hmap]
        omega

theorem loopGo_converged_iff (objects : List (List ℚ)) (numObjs : ℕ)
    (thr : ℚ) : ∀ (fuel : ℕ) (st : LoopState) (bodies : ℕ),
    ((loopGo objects numObjs thr fuel st bodies).converged = true ↔
      (loopGo objects numObjs thr fuel st bodies).lastDelta ≤ thr)
  | 0, st, bodies => by
      rcases hb : loopBody objects st with ⟨st', d⟩
      simp only [loopGo, hb]
      by_cases h : ((d : ℚ) / (numObjs : ℚ) ≤ thr) <;> simp [h]
  | fuel + 1, st, bodies => by
      rcases hb : loopBody objects st with ⟨st', d⟩
      simp only [loopGo, hb]
      by_cases h : ((d : ℚ) / (numObjs : ℚ) ≤ thr)
      · simp [h]
      · simp only [h, if_false]
        exact loopGo_converged_iff objects numObjs thr fuel st' (bodies + 1)

theorem loopGo_lastDelta (objects : List (List ℚ)) (numObjs : ℕ)
    (thr : ℚ) : ∀ (fuel : ℕ) (st : LoopState) (bodies : ℕ),
    ∃ st', (loopGo objects numObjs thr fuel st bodies).lastDelta =
      ((loopBody objects st').2 : ℚ) / (numObjs : ℚ)
  | 0, st, bodies => by
      refine ⟨st, ?_⟩
      rcases hb : loopBody objects st with ⟨st', d⟩
      simp only [loopGo, hb]
      by_cases h : ((d : ℚ) / (numObjs : ℚ) ≤ thr) <;> simp [h]
  | fuel + 1, st, bodies => by
      rcases hb : loopBody objects st with ⟨st', d⟩
      by_cases h : ((d : ℚ) / (numObjs : ℚ) ≤ thr)
      · refine ⟨st, ?_⟩
        simp only [loopGo, hb]
        rw [if_pos h]
      · obtain ⟨st2, h2⟩ := loopGo_lastDelta objects numObjs thr fuel st'
          (bodies + 1)
        refine ⟨st2, ?_⟩
        simp only [loopGo, hb]
        rw [if_neg h]
        exact h2

/-- C5: each loop body recomputes `delta` from zero as the number of
points whose newly computed cluster index differs from their previous
membership entry, and the loop exits converged precisely when the final
`delta / numObjs` is at or below the threshold. -/
theorem C5_delta_convergence :
    (∀ (objects : List (List ℚ)) (st : LoopState),
      (loopBody objects st).2 =
        ((List.range objects.length).filter (fun i =>
          decide (st.membership.getD i (-1) ≠
            ((improved_nearest (objects.getD i []) st.clusters : ℕ) :
              ℤ)))).length) ∧
    (∀ (objects : List (List ℚ)) (numObjs : ℕ) (thr : ℚ) (fuel : ℕ)
      (st : LoopState) (bodies : ℕ),
      ((loopGo objects numObjs thr fuel st bodies).converged = true ↔
        (loopGo objects numObjs thr fuel st bodies).lastDelta ≤ thr) ∧
      (∃ st', (loopGo objects numObjs thr fuel st bodies).lastDelta =
        ((loopBody objects st').2 : ℚ) / (numObjs : ℚ))) := by
  constructor
  · intro objects st
    have h : (loopBody objects st).2 =
        (assignPass st.clusters objects st.membership st.sizes st.sums
          0).delta := rfl
    rw [h, assignPass_delta]
    omega
  · intro objects numObjs thr fuel st bodies
    exact ⟨loopGo_converged_iff objects numObjs thr fuel st bodies,
      loopGo_lastDelta objects numObjs thr fuel st bodies⟩

/-! ### Index ranges of the two nearest-centroid scans (claims C6, C7) -/

theorem scanMin_range : ∀ (ds : List ℚ) (j index : ℕ) (m : ℚ),
    scanMin ds j index m = index ∨
    (j ≤ scanMin ds j index m ∧ scanMin ds j index m < j + ds.length)
  | [], _, _, _ => Or.inl rfl
  | dd :: rest, j, index, m => by
      simp only [scanMin]
      by_cases h : dd < m
      · rw [if_pos h]
        rcases scanMin_range rest (j + 1) j dd with h1 | h1
        · right
          rw [h1]
          simp only [List.length_cons]
          omega
        · right
          simp only [List.length_cons]
          omega
      · rw [if_neg h]
        rcases scanMin_range rest (j + 1) index m with h1 | h1
        · exact Or.inl h1
        · right
          simp only [List.length_cons]
          omega

theorem bumpCount_length : ∀ (s : List ℕ) (i : ℕ),
    (bumpCount s i).length = s.length
  | [], _ => rfl
  | _ :: _, 0 => rfl
  | c :: rest, n + 1 => by
      simp only [bumpCount, List.length_cons, bumpCount_length rest n]

theorem bumpCount_sum : ∀ (s : List ℕ) (i : ℕ), i < s.length →
    (bumpCount s i).sum = s.sum + 1
  | [], _, h => absurd h (by simp)
  | c :: rest, 0, _ => by
      simp only [bumpCount, List.sum_cons]
      omega
  | c :: rest, n + 1, h => by
      simp only [bumpCount, List.sum_cons,
        bumpCount_sum rest n (by simpa using h)]
      omega

theorem foldl_addCoordDist_length {K : ℕ} : ∀ (L : List (ℚ × List ℚ))
    (init : List ℚ), init.length = K → (∀ p ∈ L, p.2.length = K) →
    (L.foldl (fun dl p => addCoordDist dl p.1 p.2) init).length = K
  | [], _, h, _ => h
  | p :: L, init, h, hL => by
      simp only [List.foldl_cons]
      exact foldl_addCoordDist_length L _
        (by simp [addCoordDist, List.length_zipWith, h,
          hL p (List.mem_cons_self p L)])
        (fun q hq => hL q (List.mem_cons_of_mem p hq))

theorem computeDistArray_length {K : ℕ} (x : ℚ) (xs : List ℚ)
    (crow : List ℚ) (crows : List (List ℚ))
    (hrow : ∀ row ∈ crow :: crows, row.length = K) :
    (computeDistArray (x :: xs) (crow :: crows)).length = K := by
  simp only [computeDistArray]
  apply foldl_addCoordDist_length
  · simp [hrow crow (List.mem_cons_self _ _)]
  · intro p hp
    rcases p with ⟨a, b⟩
    exact hrow b (List.mem_cons_of_mem _ (List.of_mem_zip hp).2)

theorem improved_nearest_lt {K : ℕ} : ∀ (object : List ℚ)
    (cl : List (List ℚ)), 1 ≤ K → (∀ row ∈ cl, row.length = K) →
    improved_nearest object cl < K
  | [], cl, hK, _ => by
      have h0 : improved_nearest [] cl = 0 := rfl
      omega
  | x :: xs, [], hK, _ => by
      have h0 : improved_nearest (x :: xs) [] = 0 := rfl
      omega
  | x :: xs, crow :: crows, hK, hrow => by
      have hlen := computeDistArray_length x xs crow crows hrow
      have hr := scanMin_range (computeDistArray (x :: xs) (crow :: crows))
        0 0 sentinel
      have h0 : improved_nearest (x :: xs) (crow :: crows) =
          scanMin (computeDistArray (x :: xs) (crow :: crows)) 0 0
            sentinel := rfl
      rcases hr with h | h <;> omega

theorem fnc_scan_eq_scanMin (object : List ℚ) : ∀ (rest : List (List ℚ))
    (i index : ℕ) (m : ℚ),
    fnc_scan object rest i index m =
      scanMin (rest.map (euclid_dist_2 object)) i index m
  | [], _, _, _ => rfl
  | c :: rest, i, index, m => by
      simp only [fnc_scan, List.map_cons, scanMin]
      by_cases h : euclid_dist_2 object c < m
      · rw [if_pos h, if_pos h, fnc_scan_eq_scanMin object rest]
      · rw [if_neg h, if_neg h, fnc_scan_eq_scanMin object rest]

theorem find_nearest_lt (object : List ℚ) (c0 : List ℚ)
    (rest : List (List ℚ)) :
    find_nearest_cluster object (c0 :: rest) < (c0 :: rest).length := by
  have he : find_nearest_cluster object (c0 :: rest) =
      scanMin (rest.map (euclid_dist_2 object)) 1 0
        (euclid_dist_2 object c0) := by
    simp only [find_nearest_cluster, fnc_scan_eq_scanMin]
  have hr := scanMin_range (rest.map (euclid_dist_2 object)) 1 0
    (euclid_dist_2 object c0)
  simp only [List.length_map] at hr
  simp only [List.length_cons]
  rcases hr with h | h <;> omega

theorem find_nearest_lt_of_length {K : ℕ} : ∀ (object : List ℚ)
    (cl1 : List (List ℚ)), cl1.length = K → 1 ≤ K →
    find_nearest_cluster object cl1 < K
  | _, [], hlen, hK => by
      simp only [List.length_nil] at hlen
      omega
  | object, c0 :: rest, hlen, hK => by
      have h := find_nearest_lt object c0 rest
      omega

theorem assignPass_membership (cl : List (List ℚ)) :
    ∀ (objs : List (List ℚ)) (M : List ℤ) (sizes : List ℕ)
      (sums : List (List ℚ)) (d : ℕ),
    (assignPass cl objs M sizes sums d).membership =
      objs.map (fun o => ((improved_nearest o cl : ℕ) : ℤ))
  | [], _, _, _, _ => rfl
  | obj :: objs, M, sizes, sums, d => by
      simp only [assignPass, List.map_cons]
      rw [assignPass_membership cl objs]

/-- C6: after an assignment pass every membership entry is one cluster
index in `[0, K)` (one entry per point), and the original file's
`find_nearest_cluster` likewise always returns an index in `[0, K)`. -/
theorem C6_membership_range (cl cl1 : List (List ℚ))
    (objs : List (List ℚ)) (M : List ℤ) (sizes : List ℕ)
    (sums : List (List ℚ)) (d K : ℕ) (hK : 1 ≤ K)
    (hrow : ∀ row ∈ cl, row.length = K) (hlen : cl1.length = K) :
    (assignPass cl objs M sizes sums d).membership.length = objs.length ∧
    (∀ e ∈ (assignPass cl objs M sizes sums d).membership,
      0 ≤ e ∧ e < (K : ℤ)) ∧
    (∀ object : List ℚ, find_nearest_cluster object cl1 < K) := by
  refine ⟨?_, ?_, ?_⟩
  · rw [assignPass_membership]
    simp
  · intro e he
    rw [assignPass_membership] at he
    rcases List.mem_map.mp he with ⟨o, _, rfl⟩
    refine ⟨Int.natCast_nonneg _, ?_⟩
    exact_mod_cast improved_nearest_lt o cl hK hrow
  · intro object
    exact find_nearest_lt_of_length object cl1 hlen hK

/-- Closed instance of C6: two one-dimensional points, two centroids. -/
theorem C6_membership_range_witness :
    (assignPass [[0, 10]] [[1], [9]] [-1, -1] [0, 0] [[0, 0]]
      0).membership.length = 2 ∧
    (∀ e ∈ (assignPass [[0, 10]] [[1], [9]] [-1, -1] [0, 0] [[0, 0]]
      0).membership, 0 ≤ e ∧ e < (2 : ℤ)) ∧
    (∀ object : List ℚ, find_nearest_cluster object [[0], [10]] < 2) := by
  have h := C6_membership_range [[0, 10]] [[0], [10]] [[1], [9]] [-1, -1]
    [0, 0] [[0, 0]] 0 2 (by omega)
    (by
      intro row hr
      rcases List.mem_cons.mp hr with h1 | h1
      · subst h1; rfl
      · exact absurd h1 (List.not_mem_nil row))
    rfl
  exact ⟨h.1, h.2.1, h.2.2⟩

/-! ### Accumulator-count conservation (claim C7) -/

theorem assignPass_sizes (cl : List (List ℚ)) {K : ℕ} (hK : 1 ≤ K)
    (hrow : ∀ row ∈ cl, row.length = K) :
    ∀ (objs : List (List ℚ)) (M : List ℤ) (sizes : List ℕ)
      (sums : List (List ℚ)) (d : ℕ), sizes.length = K →
    (assignPass cl objs M sizes sums d).sizes.sum =
      sizes.sum + objs.length ∧
    (assignPass cl objs M sizes sums d).sizes.length = K
  | [], M, sizes, sums, d, h => by simp [assignPass, h]
  | obj :: objs, M, sizes, sums, d, h => by
      have hidx := improved_nearest_lt obj cl hK hrow
      have ih := assignPass_sizes cl hK hrow objs M.tail
        (bumpCount sizes (improved_nearest obj cl))
        (addObjectToSums sums obj (improved_nearest obj cl))
        (if M.headD (-1) ≠ ((improved_nearest obj cl : ℕ) : ℤ) then d + 1
          else d)
        (by rw [bumpCount_length]; exact h)
      simp only [assignPass]
      refine ⟨?_, ih.2⟩
      rw [ih.1, bumpCount_sum sizes _ (by omega)]
      simp only [List.length_cons]
      omega

theorem foldl_bump_counts (cl1 : List (List ℚ)) {K : ℕ} (hK : 1 ≤ K)
    (hlen : cl1.length = K) : ∀ (chunk : List (List ℚ)) (acc : List ℕ),
    acc.length = K →
    ((chunk.foldl (fun a o => bumpCount a (find_nearest_cluster o cl1))
      acc).sum = acc.sum + chunk.length ∧
     (chunk.foldl (fun a o => bumpCount a (find_nearest_cluster o cl1))
      acc).length = K)
  | [], acc, h => ⟨by simp, h⟩
  | obj :: chunk, acc, h => by
      have hidx := find_nearest_lt_of_length obj cl1 hlen hK
      have ih := foldl_bump_counts cl1 hK hlen chunk
        (bumpCount acc (find_nearest_cluster obj cl1))
        (by rw [bumpCount_length]; exact h)
      simp only [List.foldl_cons]
      refine ⟨?_, ih.2⟩
      rw [ih.1, bumpCount_sum acc _ (by omega)]
      simp only [List.length_cons]
      omega

theorem local_counts_spec (cl1 : List (List ℚ)) {K : ℕ} (hK : 1 ≤ K)
    (hlen : cl1.length = K) (chunk : List (List ℚ)) :
    (local_counts cl1 K chunk).sum = chunk.length ∧
    (local_counts cl1 K chunk).length = K := by
  have h := foldl_bump_counts cl1 hK hlen chunk (List.replicate K 0)
    (by simp)
  refine ⟨?_, h.2⟩
  rw [show (local_counts cl1 K chunk).sum =
    (chunk.foldl (fun a o => bumpCount a (find_nearest_cluster o cl1))
      (List.replicate K 0)).sum from rfl, h.1]
  simp

theorem zipWith_add_sum : ∀ (a b : List ℕ), a.length = b.length →
    (List.zipWith (· + ·) a b).sum = a.sum + b.sum
  | [], [], _ => rfl
  | [], _ :: _, h => by simp at h
  | _ :: _, [], h => by simp at h
  | x :: a, y :: b, h => by
      simp only [List.zipWith_cons_cons, List.sum_cons,
        zipWith_add_sum a b (by simpa using h)]
      omega

theorem foldl_merge_counts (cl1 : List (List ℚ)) {K : ℕ} (hK : 1 ≤ K)
    (hlen : cl1.length = K) : ∀ (chunks : List (List (List ℚ)))
      (acc : List ℕ), acc.length = K →
    ((chunks.foldl (fun a ch =>
        List.zipWith (· + ·) a (local_counts cl1 K ch)) acc).sum =
      acc.sum + chunks.flatten.length ∧
     (chunks.foldl (fun a ch =>
        List.zipWith (· + ·) a (local_counts cl1 K ch)) acc).length = K)
  | [], acc, h => ⟨by simp, h⟩
  | ch :: chunks, acc, h => by
      have hloc := local_counts_spec cl1 hK hlen ch
      have hzl : (List.zipWith (· + ·) acc (local_counts cl1 K ch)).length
          = K := by
        simp [List.length_zipWith, h, hloc.2]
      have ih := foldl_merge_counts cl1 hK hlen chunks
        (List.zipWith (· + ·) acc (local_counts cl1 K ch)) hzl
      simp only [List.foldl_cons]
      refine ⟨?_, ih.2⟩
      rw [ih.1, zipWith_add_sum acc _ (by rw [h, hloc.2]), hloc.1]
      simp only [List.flatten_cons, List.length_append]
      omega

theorem merged_counts_sum (cl1 : List (List ℚ)) {K : ℕ} (hK : 1 ≤ K)
    (hlen : cl1.length = K) (chunks : List (List (List ℚ))) :
    (merged_counts cl1 K chunks).sum = chunks.flatten.length := by
  have h := (foldl_merge_counts cl1 hK hlen chunks (List.replicate K 0)
    (by simp)).1
  rw [show (merged_counts cl1 K chunks).sum =
    (chunks.foldl (fun a ch =>
      List.zipWith (· + ·) a (local_counts cl1 K ch))
      (List.replicate K 0)).sum from rfl, h]
  simp

/-- C7: a completed assignment pass starting from zeroed counts leaves
member counts summing to the number of points, in the improved pass and in
the original file's thread-local discipline after the serial merge of the
per-thread accumulators. -/
theorem C7_counts_sum (cl cl1 : List (List ℚ)) (objs : List (List ℚ))
    (M : List ℤ) (sizes0 : List ℕ) (sums : List (List ℚ)) (d K : ℕ)
    (chunks : List (List (List ℚ))) (hK : 1 ≤ K)
    (hrow : ∀ row ∈ cl, row.length = K)
    (hsz : sizes0.length = K) (hsz0 : ∀ n ∈ sizes0, n = 0)
    (hlen : cl1.length = K) :
    (assignPass cl objs M sizes0 sums d).sizes.sum = objs.length ∧
    (merged_counts cl1 K chunks).sum = chunks.flatten.length := by
  constructor
  · rw [(assignPass_sizes cl hK hrow objs M sizes0 sums d hsz).1,
      List.sum_eq_zero hsz0]
    omega
  · exact merged_counts_sum cl1 hK hlen chunks

/-- Closed instance of C7. -/
theorem C7_counts_sum_witness :
    (assignPass [[0, 10]] [[1], [9]] [-1, -1] [0, 0] [[0, 0]]
      0).sizes.sum = 2 ∧
    (merged_counts [[0], [10]] 2 [[[1]], [[9]]]).sum =
      ([[[1]], [[9]]] : List (List (List ℚ))).flatten.length :=
  C7_counts_sum [[0, 10]] [[0], [10]] [[1], [9]] [-1, -1] [0, 0] [[0, 0]]
    0 2 [[[1]], [[9]]] (by omega)
    (by
      intro row hr
      rcases List.mem_cons.mp hr with h1 | h1
      · subst h1; rfl
      · exact absurd h1 (List.not_mem_nil row))
    rfl (by decide) rfl

/-! ### `getD` helpers -/

theorem getD_append_left : ∀ (l1 l2 : List ℚ) (k : ℕ), k < l1.length →
    (l1 ++ l2).getD k 0 = l1.getD k 0
  | [], _, k, h => absurd h (by simp)
  | a :: l1, l2, 0, _ => rfl
  | a :: l1, l2, k + 1, h =>
      getD_append_left l1 l2 k (by simpa using h)

theorem getD_snoc_length : ∀ (l : List ℚ) (a : ℚ),
    (l ++ [a]).getD l.length 0 = a
  | [], _ => rfl
  | b :: l, a => getD_snoc_length l a

theorem getD_mem : ∀ (l : List ℚ) (k : ℕ), k < l.length → l.getD k 0 ∈ l
  | [], k, h => absurd h (by simp)
  | a :: l, 0, _ => List.mem_cons_self a l
  | a :: l, k + 1, h =>
      List.mem_cons_of_mem a (getD_mem l k (by simpa using h))

theorem getD_map_dist (object : List ℚ) : ∀ (cls : List (List ℚ)) (k : ℕ),
    k < cls.length →
    (cls.map (euclid_dist_2 object)).getD k 0 =
      euclid_dist_2 object (cls.getD k [])
  | [], k, h => absurd h (by simp)
  | c :: cls, 0, _ => rfl
  | c :: cls, k + 1, h => getD_map_dist object cls k (by simpa using h)

theorem getD_map_q (f : ℚ → ℚ) : ∀ (l : List ℚ) (j : ℕ), j < l.length →
    (l.map f).getD j 0 = f (l.getD j 0)
  | [], j, h => absurd h (by simp)
  | a :: l, 0, _ => rfl
  | a :: l, j + 1, h => getD_map_q f l j (by simpa using h)

/-! ### The scan with a valid running minimum -/

theorem scanMin_go : ∀ (ds pre : List ℚ) (index : ℕ) (m : ℚ),
    index < pre.length →
    m = pre.getD index 0 →
    (∀ k, k < pre.length → m ≤ pre.getD k 0) →
    (∀ k, k < index → m < pre.getD k 0) →
    (scanMin ds pre.length index m < (pre ++ ds).length ∧
     (∀ k, k < (pre ++ ds).length →
       (pre ++ ds).getD (scanMin ds pre.length index m) 0 ≤
         (pre ++ ds).getD k 0) ∧
     (∀ k, k < scanMin ds pre.length index m →
       (pre ++ ds).getD (scanMin ds pre.length index m) 0 <
         (pre ++ ds).getD k 0))
  | [], pre, index, m, hidx, hm, hle, hlt => by
      simp only [scanMin, List.append_nil]
      refine ⟨hidx, ?_, ?_⟩
      · intro k hk
        rw [← hm]
        exact hle k hk
      · intro k hk
        rw [← hm]
        exact hlt k hk
  | dd :: rest, pre, index, m, hidx, hm, hle, hlt => by
      have hsplit : pre ++ dd :: rest = (pre ++ [dd]) ++ rest := by simp
      simp only [scanMin]
      by_cases h : dd < m
      · rw [if_pos h]
        have hres := scanMin_go rest (pre ++ [dd]) pre.length dd
          (by simp)
          (by rw [getD_snoc_length])
          (by
            intro k hk
            simp only [List.length_append, List.length_singleton] at hk
            rcases Nat.lt_succ_iff_lt_or_eq.mp hk with hk | hk
            · rw [getD_append_left pre [dd] k hk]
              exact le_of_lt (lt_of_lt_of_le h (hle k hk))
            · subst hk
              rw [getD_snoc_length])
          (by
            intro k hk
            rw [getD_append_left pre [dd] k hk]
            exact lt_of_lt_of_le h (hle k hk))
        rw [hsplit, show pre.length + 1 = (pre ++ [dd]).length by simp]
        exact hres
      · rw [if_neg h]
        have hres := scanMin_go rest (pre ++ [dd]) index m
          (by simp only [List.length_append, List.length_singleton]; omega)
          (by rw [getD_append_left pre [dd] index hidx]; exact hm)
          (by
            intro k hk
            simp only [List.length_append, List.length_singleton] at hk
            rcases Nat.lt_succ_iff_lt_or_eq.mp hk with hk | hk
            · rw [getD_append_left pre [dd] k hk]
              exact hle k hk
            · subst hk
              rw [getD_snoc_length]
              exact not_lt.mp h)
          (fun k hk => by
            rw [getD_append_left pre [dd] k (lt_trans hk hidx)]
            exact hlt k hk)
        rw [hsplit, show pre.length + 1 = (pre ++ [dd]).length by simp]
        exact hres

/-! ### The scan started from the sentinel -/

theorem scanMin_sent : ∀ (ds pre : List ℚ),
    (∀ k, k < pre.length → sentinel ≤ pre.getD k 0) →
    (∃ x ∈ ds, x < sentinel) →
    (scanMin ds pre.length 0 sentinel < (pre ++ ds).length ∧
     (∀ k, k < (pre ++ ds).length →
       (pre ++ ds).getD (scanMin ds pre.length 0 sentinel) 0 ≤
         (pre ++ ds).getD k 0) ∧
     (∀ k, k < scanMin ds pre.length 0 sentinel →
       (pre ++ ds).getD (scanMin ds pre.length 0 sentinel) 0 <
         (pre ++ ds).getD k 0))
  | [], pre, hpre, hex => absurd hex (by simp)
  | dd :: rest, pre, hpre, hex => by
      have hsplit : pre ++ dd :: rest = (pre ++ [dd]) ++ rest := by simp
      simp only [scanMin]
      by_cases h : dd < sentinel
      · rw [if_pos h]
        have hres := scanMin_go rest (pre ++ [dd]) pre.length dd
          (by simp)
          (by rw [getD_snoc_length])
          (by
            intro k hk
            simp only [List.length_append, List.length_singleton] at hk
            rcases Nat.lt_succ_iff_lt_or_eq.mp hk with hk | hk
            · rw [getD_append_left pre [dd] k hk]
              exact le_of_lt (lt_of_lt_of_le h (hpre k hk))
            · subst hk
              rw [getD_snoc_length])
          (by
            intro k hk
            rw [getD_append_left pre [dd] k hk]
            exact lt_of_lt_of_le h (hpre k hk))
        rw [hsplit, show pre.length + 1 = (pre ++ [dd]).length by simp]
        exact hres
      · rw [if_neg h]
        have hex' : ∃ x ∈ rest, x < sentinel := by
          rcases hex with ⟨x, hx, hxlt⟩
          rcases List.mem_cons.mp hx with rfl | hx
          · exact absurd hxlt h
          · exact ⟨x, hx, hxlt⟩
        have hres := scanMin_sent rest (pre ++ [dd])
          (by
            intro k hk
            simp only [List.length_append, List.length_singleton] at hk
            rcases Nat.lt_succ_iff_lt_or_eq.mp hk with hk | hk
            · rw [getD_append_left pre [dd] k hk]
              exact hpre k hk
            · subst hk
              rw [getD_snoc_length]
              exact not_lt.mp h)
          hex'
        rw [hsplit, show pre.length + 1 = (pre ++ [dd]).length by simp]
        exact hres

/-! ### `computeDistArray` computes the true squared column distances -/

theorem map_zip_eq_zipWith (f : ℚ → List ℚ → ℚ) : ∀ (xs : List ℚ)
    (cs : List (List ℚ)),
    (xs.zip cs).map (fun p => f p.1 p.2) = List.zipWith f xs cs
  | [], _ => by simp
  | _ :: _, [] => by simp
  | x :: xs, c :: cs => by
      simp only [List.zip_cons_cons, List.map_cons, List.zipWith_cons_cons,
        map_zip_eq_zipWith f xs cs]

theorem addCoordDist_getD : ∀ (dl crow : List ℚ) (x : ℚ) (j : ℕ),
    j < dl.length → j < crow.length →
    (addCoordDist dl x crow).getD j 0 =
      dl.getD j 0 + (x - crow.getD j 0) * (x - crow.getD j 0)
  | [], _, _, j, h, _ => absurd h (by simp)
  | _ :: _, [], _, j, _, h => absurd h (by simp)
  | a :: dl, c :: crow, x, 0, _, _ => rfl
  | a :: dl, c :: crow, x, j + 1, h1, h2 => by
      simp only [addCoordDist, List.zipWith_cons_cons, List.getD_cons_succ]
      exact addCoordDist_getD dl crow x j (by simpa using h1)
        (by simpa using h2)

theorem foldl_addCoordDist_getD {K : ℕ} : ∀ (L : List (ℚ × List ℚ))
    (init : List ℚ) (j : ℕ), init.length = K →
    (∀ p ∈ L, p.2.length = K) → j < K →
    (L.foldl (fun dl p => addCoordDist dl p.1 p.2) init).getD j 0 =
      init.getD j 0 +
        (L.map (fun p => (p.1 - p.2.getD j 0) * (p.1 - p.2.getD j 0))).sum
  | [], init, j, _, _, _ => by simp
  | p :: L, init, j, hlen, hL, hj => by
      have hplen := hL p (List.mem_cons_self p L)
      have hstep : (addCoordDist init p.1 p.2).length = K := by
        simp [addCoordDist, List.length_zipWith, hlen, hplen]
      simp only [List.foldl_cons, List.map_cons, List.sum_cons]
      rw [foldl_addCoordDist_getD L (addCoordDist init p.1 p.2) j hstep
        (fun q hq => hL q (List.mem_cons_of_mem p hq)) hj]
      rw [addCoordDist_getD init p.2 p.1 j (by omega) (by omega)]
      ring

theorem computeDistArray_getD {K : ℕ} (x : ℚ) (xs : List ℚ)
    (crow : List ℚ) (crows : List (List ℚ)) (j : ℕ)
    (hrow : ∀ row ∈ crow :: crows, row.length = K) (hj : j < K) :
    (computeDistArray (x :: xs) (crow :: crows)).getD j 0 =
      sqDistCol (x :: xs) (crow :: crows) j := by
  have hc0 := hrow crow (List.mem_cons_self _ _)
  simp only [computeDistArray]
  rw [foldl_addCoordDist_getD (xs.zip crows)
    (crow.map (fun c => (x - c) * (x - c))) j
    (by simp [hc0])
    (by
      intro p hp
      rcases p with ⟨a, b⟩
      exact hrow b (List.mem_cons_of_mem _ (List.of_mem_zip hp).2))
    hj]
  rw [getD_map_q (fun c => (x - c) * (x - c)) crow j (by omega)]
  rw [map_zip_eq_zipWith
    (fun a b => (a - b.getD j 0) * (a - b.getD j 0)) xs crows]
  simp only [sqDistCol, List.zipWith_cons_cons, List.sum_cons]

/-! ### The lowest-index argmin property of the two searches (claim C1) -/

theorem improved_nearest_argmin {K : ℕ} : ∀ (object : List ℚ)
    (clusters : List (List ℚ)),
    (∀ row ∈ clusters, row.length = K) →
    (∃ j, j < K ∧ sqDistCol object clusters j < sentinel) →
    (improved_nearest object clusters < K ∧
     (∀ j, j < K →
       sqDistCol object clusters (improved_nearest object clusters) ≤
         sqDistCol object clusters j) ∧
     (∀ j, j < improved_nearest object clusters →
       sqDistCol object clusters (improved_nearest object clusters) <
         sqDistCol object clusters j))
  | [], clusters, hrow, hex => by
      obtain ⟨j0, hj0, _⟩ := hex
      have h0 : improved_nearest [] clusters = 0 := rfl
      have hs : ∀ j, sqDistCol ([] : List ℚ) clusters j = 0 := by
        intro j
        simp [sqDistCol]
      rw [h0]
      refine ⟨by omega, ?_, ?_⟩
      · intro j _
        rw [hs, hs]
      · intro j hj
        omega
  | x :: xs, [], hrow, hex => by
      obtain ⟨j0, hj0, _⟩ := hex
      have h0 : improved_nearest (x :: xs) [] = 0 := rfl
      have hs : ∀ j, sqDistCol (x :: xs) ([] : List (List ℚ)) j = 0 := by
        intro j
        simp [sqDistCol]
      rw [h0]
      refine ⟨by omega, ?_, ?_⟩
      · intro j _
        rw [hs, hs]
      · intro j hj
        omega
  | x :: xs, crow :: crows, hrow, hex => by
      have hlen : (computeDistArray (x :: xs) (crow :: crows)).length = K :=
        computeDistArray_length x xs crow crows hrow
      have hgetD : ∀ j, j < K →
          (computeDistArray (x :: xs) (crow :: crows)).getD j 0 =
            sqDistCol (x :: xs) (crow :: crows) j :=
        fun j hj => computeDistArray_getD x xs crow crows j hrow hj
      obtain ⟨j0, hj0, hlt0⟩ := hex
      have hex' : ∃ y ∈ computeDistArray (x :: xs) (crow :: crows),
          y < sentinel := by
        refine ⟨(computeDistArray (x :: xs) (crow :: crows)).getD j0 0,
          getD_mem _ j0 (by omega), ?_⟩
        rw [hgetD j0 hj0]
        exact hlt0
      have hres := scanMin_sent (computeDistArray (x :: xs) (crow :: crows))
        [] (by simp) hex'
      simp only [List.nil_append, List.length_nil] at hres
      have hi : improved_nearest (x :: xs) (crow :: crows) =
          scanMin (computeDistArray (x :: xs) (crow :: crows)) 0 0
            sentinel := rfl
      obtain ⟨h1, h2, h3⟩ := hres
      rw [hi]
      refine ⟨by omega, ?_, ?_⟩
      · intro j hj
        rw [← hgetD j hj, ← hgetD _ (by omega)]
        exact h2 j (by omega)
      · intro j hj
        rw [← hgetD _ (by omega), ← hgetD j (by omega)]
        exact h3 j hj

/-- C1 (amended): `find_nearest_cluster` returns the lowest index
minimising the squared Euclidean distance over the centroid list, and the
improved inline search does the same over the column distances of its
`[numCoords][numClusters]` matrix whenever some true squared distance is
below the `INT_MAX` sentinel that seeds its scan. -/
theorem C1_nearest_argmin :
    (∀ (object c0 : List ℚ) (rest : List (List ℚ)),
      find_nearest_cluster object (c0 :: rest) < (c0 :: rest).length ∧
      (∀ k, k < (c0 :: rest).length →
        euclid_dist_2 object
            ((c0 :: rest).getD (find_nearest_cluster object (c0 :: rest))
              []) ≤
          euclid_dist_2 object ((c0 :: rest).getD k [])) ∧
      (∀ k, k < find_nearest_cluster object (c0 :: rest) →
        euclid_dist_2 object
            ((c0 :: rest).getD (find_nearest_cluster object (c0 :: rest))
              []) <
          euclid_dist_2 object ((c0 :: rest).getD k []))) ∧
    (∀ (object : List ℚ) (clusters : List (List ℚ)) (K : ℕ),
      (∀ row ∈ clusters, row.length = K) →
      (∃ j, j < K ∧ sqDistCol object clusters j < sentinel) →
      (improved_nearest object clusters < K ∧
       (∀ j, j < K →
         sqDistCol object clusters (improved_nearest object clusters) ≤
           sqDistCol object clusters j) ∧
       (∀ j, j < improved_nearest object clusters →
         sqDistCol object clusters (improved_nearest object clusters) <
           sqDistCol object clusters j))) := by
  constructor
  · intro object c0 rest
    have he : find_nearest_cluster object (c0 :: rest) =
        scanMin (rest.map (euclid_dist_2 object)) 1 0
          (euclid_dist_2 object c0) := by
      simp only [find_nearest_cluster, fnc_scan_eq_scanMin]
    have hres := scanMin_go (rest.map (euclid_dist_2 object))
      [euclid_dist_2 object c0] 0 (euclid_dist_2 object c0)
      (by simp) rfl
      (by
        intro k hk
        have hk0 : k = 0 := by
          simpa using Nat.lt_one_iff.mp (by simpa using hk)
        subst hk0
        exact le_refl _)
      (fun k hk => absurd hk (Nat.not_lt_zero k))
    rw [show ([euclid_dist_2 object c0] ++
        rest.map (euclid_dist_2 object)) =
        (c0 :: rest).map (euclid_dist_2 object) by
      simp] at hres
    rw [show ([euclid_dist_2 object c0] : List ℚ).length = 1 by rfl]
      at hres
    simp only [List.length_map] at hres
    obtain ⟨h1, h2, h3⟩ := hres
    rw [← he] at h1 h2 h3
    refine ⟨h1, ?_, ?_⟩
    · intro k hk
      have := h2 k hk
      rw [getD_map_dist object (c0 :: rest) k hk,
        getD_map_dist object (c0 :: rest) _ h1] at this
      exact this
    · intro k hk
      have := h3 k hk
      rw [getD_map_dist object (c0 :: rest) k (lt_trans hk h1),
        getD_map_dist object (c0 :: rest) _ h1] at this
      exact this
  · intro object clusters K hrow hex
    exact improved_nearest_argmin object clusters hrow hex

/-- C1 counterexample: with both squared distances at or above the
`INT_MAX` sentinel the improved search returns index 0 although centroid 1
is strictly closer. -/
theorem C1_sentinel_returns_zero :
    improved_nearest [0] [[50000, 46341]] = 0 ∧
    sqDistCol [0] [[50000, 46341]] 1 <
      sqDistCol [0] [[50000, 46341]] 0 ∧
    sentinel ≤ sqDistCol [0] [[50000, 46341]] 1 := by
  refine ⟨?_, ?_, ?_⟩ <;> with_unfolding_all decide

/-- Closed instance of the amended C1 for the improved search. -/
theorem C1_nearest_argmin_witness :
    (∃ j, j < 2 ∧ sqDistCol [1] [[0, 10]] j < sentinel) ∧
    (improved_nearest [1] [[0, 10]] < 2 ∧
     (∀ j, j < 2 →
       sqDistCol [1] [[0, 10]] (improved_nearest [1] [[0, 10]]) ≤
         sqDistCol [1] [[0, 10]] j) ∧
     (∀ j, j < improved_nearest [1] [[0, 10]] →
       sqDistCol [1] [[0, 10]] (improved_nearest [1] [[0, 10]]) <
         sqDistCol [1] [[0, 10]] j)) := by
  have hex : ∃ j, j < 2 ∧ sqDistCol [1] [[0, 10]] j < sentinel :=
    ⟨0, by omega, by with_unfolding_all decide⟩
  refine ⟨hex, C1_nearest_argmin.2 [1] [[0, 10]] 2 ?_ hex⟩
  intro row hr
  rcases List.mem_cons.mp hr with h1 | h1
  · subst h1; rfl
  · exact absurd h1 (List.not_mem_nil row)

set_option maxRecDepth 10000 in
/-- C8: on the same input, initial centroids and (one) thread, the
original file's atomic discipline and its thread-local discipline return
different final memberships: the atomic branch reads the objects
transposed and truncated to `int` and scans the centroid matrix
transposed, so it assigns both points to cluster 0 where
`find_nearest_cluster` assigns both to cluster 1. -/
theorem C8_discipline_divergence :
    (file1_kmeans true [[0, -3], [4, 0]] 2 2 1 [[0, 5], [5, 0]]).membership
      = [0, 0] ∧
    (file1_kmeans false [[0, -3], [4, 0]] 2 2 1 [[0, 5], [5, 0]]).membership
      = [1, 1] ∧
    (file1_kmeans true [[0, -3], [4, 0]] 2 2 1 [[0, 5], [5, 0]]).membership ≠
      (file1_kmeans false [[0, -3], [4, 0]] 2 2 1 [[0, 5], [5, 0]]).membership
      := by
  refine ⟨?_, ?_, ?_⟩ <;> with_unfolding_all decide

/-- C9 (amended): the engine always returns the constant `1`, not the
iteration count; the centroid and membership arrays are produced. -/
theorem C9_returns_one : ∀ (flag : Bool) (objects : List (List ℚ)) (K : ℕ)
    (thr : ℚ) (cl : List (List ℚ)),
    (omp_kmeans flag objects K thr cl).ret = 1 :=
  fun _ _ _ _ _ => rfl

set_option maxRecDepth 10000 in
/-- C9 counterexample: a run that performs 2 iterations still returns 1. -/
theorem C9_ret_not_loops :
    (omp_kmeans false [[0], [10]] 2 0 [[0, 10]]).loops = 2 ∧
    (omp_kmeans false [[0], [10]] 2 0 [[0, 10]]).ret = 1 ∧
    (omp_kmeans false [[0], [10]] 2 0 [[0, 10]]).ret ≠
      ((omp_kmeans false [[0], [10]] 2 0 [[0, 10]]).loops : ℤ) := by
  refine ⟨?_, ?_, ?_⟩ <;> with_unfolding_all decide

/-- C10: the improved `omp_kmeans` never reads `is_perform_atomic`; runs
differing only in that flag agree on every output. -/
theorem C10_flag_no_effect : ∀ (a b : Bool) (objects : List (List ℚ))
    (K : ℕ) (thr : ℚ) (cl : List (List ℚ)),
    omp_kmeans a objects K thr cl = omp_kmeans b objects K thr cl :=
  fun _ _ _ _ _ _ => rfl

/-- C2 (amended): the `do … while (delta > threshold && loop++ < 500)`
loop always executes at most 501 bodies, and exactly 501 when the
convergence test never fires. -/
theorem C2_loop_cap : ∀ (flag : Bool) (objects : List (List ℚ)) (K : ℕ)
    (thr : ℚ) (cl : List (List ℚ)),
    (omp_kmeans flag objects K thr cl).loops ≤ 501 ∧
    ((omp_kmeans flag objects K thr cl).converged = false →
      (omp_kmeans flag objects K thr cl).loops = 501) := by
  intro flag objects K thr cl
  rw [omp_kmeans_loops_eq, omp_kmeans_converged_eq]
  have h := loopGo_cap objects objects.length thr 500
    ⟨cl, List.replicate objects.length (-1), List.replicate K 0,
     cl.map (fun row => row.map (fun _ => 0))⟩ 0
  exact ⟨by omega, fun hc => by rw [h.2 hc]⟩

/-- C2 counterexample: a well-formed input (506 one-dimensional points,
2 clusters, threshold 0) on which the loop runs 501 bodies — beyond the
claimed 500 — and exits at the cap, not converged. -/
theorem C2_cap_overrun :
    (omp_kmeans false objsC2 2 0 clustersC2).loops = 501 ∧
    ¬ (omp_kmeans false objsC2 2 0 clustersC2).loops ≤ 500 ∧
    (omp_kmeans false objsC2 2 0 clustersC2).converged = false ∧
    0 < objsC2.length ∧ 2 ≤ objsC2.length := by
  obtain ⟨h1, h2⟩ := run_objsC2
  refine ⟨h1, by rw [h1]; omega, h2, ?_, ?_⟩ <;> rw [objsC2_length] <;> omega

end Kmeans
